import Mathlib

/-!
# myvm: an LC-3 virtual machine (`myvm.c`)

A shallow embedding of `myvm.c`.  Every `uint16_t` is a `Nat`; wherever the C
code narrows an `int` expression to `uint16_t` the embedding writes `% 65536`.
A plain copy of one `uint16_t` into another is the identity, so statements that
depend on cells holding 16-bit values assume `WF`.

The host is explicit state: `stdin` is the stream of bytes `getchar` still has
to deliver (each taken modulo 256; at the end of the stream `getchar` returns
`EOF = -1`), `ready` is the stream of answers `select` gives to the successive
calls of `check_key`, and `stdout` is the list of bytes written so far.
-/

namespace MyVM

/-! ## Constants -/

abbrev MEMORY_MAX : Nat := 1 <<< 16

abbrev R_R0 : Nat := 0
abbrev R_R1 : Nat := 1
abbrev R_R2 : Nat := 2
abbrev R_R3 : Nat := 3
abbrev R_R4 : Nat := 4
abbrev R_R5 : Nat := 5
abbrev R_R6 : Nat := 6
abbrev R_R7 : Nat := 7
abbrev R_PC : Nat := 8
abbrev R_COND : Nat := 9
abbrev R_COUNT : Nat := 10

abbrev FL_POS : Nat := 1 <<< 0
abbrev FL_ZRO : Nat := 1 <<< 1
abbrev FL_NEG : Nat := 1 <<< 2

abbrev OP_BR : Nat := 0
abbrev OP_ADD : Nat := 1
abbrev OP_LD : Nat := 2
abbrev OP_ST : Nat := 3
abbrev OP_JSR : Nat := 4
abbrev OP_AND : Nat := 5
abbrev OP_LDR : Nat := 6
abbrev OP_STR : Nat := 7
abbrev OP_RTI : Nat := 8
abbrev OP_NOT : Nat := 9
abbrev OP_LDI : Nat := 10
abbrev OP_STI : Nat := 11
abbrev OP_JMP : Nat := 12
abbrev OP_RES : Nat := 13
abbrev OP_LEA : Nat := 14
abbrev OP_TRAP : Nat := 15

abbrev TRAP_GETC : Nat := 0x20
abbrev TRAP_OUT : Nat := 0x21
abbrev TRAP_PUTS : Nat := 0x22
abbrev TRAP_IN : Nat := 0x23
abbrev TRAP_PUTSP : Nat := 0x24
abbrev TRAP_HALT : Nat := 0x25

abbrev MR_KBSR : Nat := 0xFE00
abbrev MR_KBDR : Nat := 0xFE02

abbrev PC_START : Nat := 0x3000

/-! ## Machine state -/

/-- How the process stands: the loop of `main` is still `running`, it was
stopped by `TRAP_HALT`, it was killed by `abort()`, or a string trap walked its
pointer past `memory[0xFFFF]`. -/
inductive Status where
  | running
  | halted
  | aborted
  | outOfBounds
  deriving DecidableEq, Repr

/-- The globals `memory` and `reg`, the host streams, the signedness of plain
`char` on the platform, and the loop status. -/
structure VM where
  memory : Nat → Nat
  reg : Nat → Nat
  stdin : List Nat
  ready : List Bool
  stdout : List Nat
  charSigned : Bool
  status : Status

/-- Array store `a[i] = v`. -/
def upd (a : Nat → Nat) (i v : Nat) : Nat → Nat :=
  fun j => if j = i then v else a j

/-- Conversion of an `int` to `uint16_t`. -/
def u16 (v : Int) : Nat := (v % 65536).toNat

/-- Conversion of an `int` to plain `char`, as an `int` again. -/
def toChar (signed : Bool) (v : Int) : Int :=
  if signed && decide (128 ≤ v % 256) then v % 256 - 256 else v % 256

/-- Every memory cell and every register holds a 16-bit value. -/
def WF (s : VM) : Prop :=
  (∀ a, s.memory a < 65536) ∧ (∀ r, s.reg r < 65536)

/-! ## Host primitives -/

/-- The probe `check_key`: `select(...) != 0` on standard input. -/
def check_key (s : VM) : Bool × VM :=
  match s.ready with
  | [] => (false, s)
  | b :: rest => (b, { s with ready := rest })

/-- The call `getchar()`: the next byte as an `int`, or `EOF`. -/
def getchar (s : VM) : Int × VM :=
  match s.stdin with
  | [] => (-1, s)
  | c :: rest => (((c % 256 : Nat) : Int), { s with stdin := rest })

/-- The call `putc(c, stdout)`: one byte, `(unsigned char) c`. -/
def putc (s : VM) (c : Int) : VM :=
  { s with stdout := s.stdout ++ [(c % 256).toNat] }

/-- Write a list of bytes to `stdout`. -/
def putBytes (s : VM) (bs : List Nat) : VM :=
  { s with stdout := s.stdout ++ bs }

/-! ## Memory access -/

def mem_write (s : VM) (address val : Nat) : VM :=
  { s with memory := upd s.memory address val }

def mem_read (s : VM) (address : Nat) : Nat × VM :=
  if address = MR_KBSR then
    let k := check_key s
    if k.1 then
      let s2 : VM := { k.2 with memory := upd k.2.memory MR_KBSR (1 <<< 15) }
      let c := getchar s2
      let s4 : VM := { c.2 with memory := upd c.2.memory MR_KBDR (u16 c.1) }
      (s4.memory address, s4)
    else
      let s2 : VM := { k.2 with memory := upd k.2.memory MR_KBSR 0 }
      (s2.memory address, s2)
  else
    (s.memory address, s)

/-! ## Helpers of the interpreter -/

def sign_extend (x bit_count : Nat) : Nat :=
  if (x >>> (bit_count - 1)) &&& 1 ≠ 0 then
    (x ||| (0xffff <<< bit_count)) % 65536
  else x

def update_flags (s : VM) (r : Nat) : VM :=
  if s.reg r = 0 then
    { s with reg := upd s.reg R_COND FL_ZRO }
  else if s.reg r >>> 15 ≠ 0 then
    { s with reg := upd s.reg R_COND FL_NEG }
  else
    { s with reg := upd s.reg R_COND FL_POS }

def swap16 (x : Nat) : Nat := ((x <<< 8) ||| (x >>> 8)) % 65536

/-! ## The loop body of `main` -/

/-- The fetch `mem_read(reg[R_PC]++)`: the argument is the old `PC`, and the
increment is done before `mem_read` runs. -/
def fetch (s : VM) : Nat × VM :=
  let pc := s.reg R_PC
  mem_read { s with reg := upd s.reg R_PC ((pc + 1) % 65536) } pc

def op_ADD (instr : Nat) (s : VM) : VM :=
  let r0 := (instr >>> 9) &&& 0x7
  let r1 := (instr >>> 6) &&& 0x7
  let imm_flag := (instr >>> 5) &&& 1
  let s1 : VM :=
    if imm_flag ≠ 0 then
      let imm5 := sign_extend (instr &&& 0x1f) 5
      { s with reg := upd s.reg r0 ((s.reg r1 + imm5) % 65536) }
    else
      let r2 := instr &&& 0x7
      { s with reg := upd s.reg r0 ((s.reg r1 + s.reg r2) % 65536) }
  update_flags s1 r0

def op_AND (instr : Nat) (s : VM) : VM :=
  let r0 := (instr >>> 9) &&& 0x7
  let r1 := (instr >>> 6) &&& 0x7
  let imm_flag := (instr >>> 5) &&& 0x1
  let s1 : VM :=
    if imm_flag ≠ 0 then
      let imm5 := sign_extend (instr &&& 0x1f) 5
      { s with reg := upd s.reg r0 ((s.reg r1 &&& imm5) % 65536) }
    else
      let r2 := instr &&& 0x7
      { s with reg := upd s.reg r0 ((s.reg r1 &&& s.reg r2) % 65536) }
  update_flags s1 r0

/-- The case `OP_NOT`: the low 16 bits of `~reg[r1]`. -/
def op_NOT (instr : Nat) (s : VM) : VM :=
  let r0 := (instr >>> 9) &&& 0x7
  let r1 := (instr >>> 6) &&& 0x7
  let s1 : VM := { s with reg := upd s.reg r0 ((s.reg r1 ^^^ 0xffff) % 65536) }
  update_flags s1 r0

def op_BR (instr : Nat) (s : VM) : VM :=
  let cond_flag := (instr >>> 9) &&& 0x7
  let pc_offset := sign_extend (instr &&& 0x1ff) 9
  if cond_flag &&& s.reg R_COND ≠ 0 then
    { s with reg := upd s.reg R_PC ((s.reg R_PC + pc_offset) % 65536) }
  else s

def op_JMP (instr : Nat) (s : VM) : VM :=
  let r1 := (instr >>> 6) &&& 0x7
  { s with reg := upd s.reg R_PC (s.reg r1) }

def op_JSR (instr : Nat) (s : VM) : VM :=
  let imm_flag := (instr >>> 11) &&& 0x1
  let s1 : VM := { s with reg := upd s.reg R_R7 (s.reg R_PC) }
  if imm_flag ≠ 0 then
    let pc_offset := sign_extend (instr &&& 0x7ff) 11
    { s1 with reg := upd s1.reg R_PC ((s1.reg R_PC + pc_offset) % 65536) }
  else
    let r1 := (instr >>> 6) &&& 0x7
    { s1 with reg := upd s1.reg R_PC (s1.reg r1) }

def op_LD (instr : Nat) (s : VM) : VM :=
  let r0 := (instr >>> 9) &&& 0x7
  let pc_offset := sign_extend (instr &&& 0x1ff) 9
  let v := mem_read s ((s.reg R_PC + pc_offset) % 65536)
  let s1 : VM := { v.2 with reg := upd v.2.reg r0 v.1 }
  update_flags s1 r0

def op_LDI (instr : Nat) (s : VM) : VM :=
  let r0 := (instr >>> 9) &&& 0x7
  let pc_offset := sign_extend (instr &&& 0x1ff) 9
  let p := mem_read s ((s.reg R_PC + pc_offset) % 65536)
  let v := mem_read p.2 p.1
  let s1 : VM := { v.2 with reg := upd v.2.reg r0 v.1 }
  update_flags s1 r0

def op_LDR (instr : Nat) (s : VM) : VM :=
  let r0 := (instr >>> 9) &&& 0x7
  let r1 := (instr >>> 6) &&& 0x7
  let offset := sign_extend (instr &&& 0x3f) 6
  let v := mem_read s ((s.reg r1 + offset) % 65536)
  let s1 : VM := { v.2 with reg := upd v.2.reg r0 v.1 }
  update_flags s1 r0

def op_LEA (instr : Nat) (s : VM) : VM :=
  let r0 := (instr >>> 9) &&& 0x7
  let pc_offset := sign_extend (instr &&& 0x1ff) 9
  let s1 : VM := { s with reg := upd s.reg r0 ((s.reg R_PC + pc_offset) % 65536) }
  update_flags s1 r0

def op_ST (instr : Nat) (s : VM) : VM :=
  let r1 := (instr >>> 9) &&& 0x7
  let pc_offset := sign_extend (instr &&& 0x1ff) 9
  mem_write s ((s.reg R_PC + pc_offset) % 65536) (s.reg r1)

def op_STI (instr : Nat) (s : VM) : VM :=
  let r1 := (instr >>> 9) &&& 0x7
  let pc_offset := sign_extend (instr &&& 0x1ff) 9
  let p := mem_read s ((s.reg R_PC + pc_offset) % 65536)
  mem_write p.2 p.1 (p.2.reg r1)

def op_STR (instr : Nat) (s : VM) : VM :=
  let r1 := (instr >>> 9) &&& 0x7
  let r2 := (instr >>> 6) &&& 0x7
  let offset := sign_extend (instr &&& 0x3f) 6
  mem_write s ((s.reg r2 + offset) % 65536) (s.reg r1)

/-! ## TRAP routines -/

/-- The loop of `TRAP_PUTS` from the cell `c` on, with `n` cells left before the
end of `memory`; `none` when the pointer leaves the array. -/
def puts_loop (memory : Nat → Nat) : Nat → Nat → List Nat → Option (List Nat)
  | 0, _, _ => none
  | n + 1, c, out =>
    if memory c ≠ 0 then puts_loop memory n (c + 1) (out ++ [memory c % 256])
    else some out

/-- The loop of `TRAP_PUTSP`, as `puts_loop`. -/
def putsp_loop (memory : Nat → Nat) : Nat → Nat → List Nat → Option (List Nat)
  | 0, _, _ => none
  | n + 1, c, out =>
    if memory c ≠ 0 then
      let char1 := memory c &&& 0xff
      let char2 := (memory c >>> 8) % 256
      putsp_loop memory n (c + 1)
        (if char2 ≠ 0 then out ++ [char1, char2] else out ++ [char1])
    else some out

def trap_GETC (s : VM) : VM :=
  let c := getchar s
  let s1 : VM := { c.2 with reg := upd c.2.reg R_R0 (u16 c.1) }
  update_flags s1 R_R0

def trap_OUT (s : VM) : VM :=
  putc s (s.reg R_R0)

def trap_PUTS (s : VM) : VM :=
  match puts_loop s.memory (MEMORY_MAX - s.reg R_R0) (s.reg R_R0) [] with
  | some out => putBytes s out
  | none => { s with status := Status.outOfBounds }

/-- The bytes of the prompt "Enter a character: ". -/
def promptBytes : List Nat :=
  [69, 110, 116, 101, 114, 32, 97, 32, 99, 104, 97, 114, 97, 99, 116, 101, 114, 58, 32]

def trap_IN (s : VM) : VM :=
  let s0 := putBytes s promptBytes
  let g := getchar s0
  let c := toChar s.charSigned g.1
  let s1 := putc g.2 c
  let s2 : VM := { s1 with reg := upd s1.reg R_R0 (u16 c) }
  update_flags s2 R_R0

def trap_PUTSP (s : VM) : VM :=
  match putsp_loop s.memory (MEMORY_MAX - s.reg R_R0) (s.reg R_R0) [] with
  | some out => putBytes s out
  | none => { s with status := Status.outOfBounds }

/-- The bytes of `puts("HALT")`: the text and a newline. -/
def haltBytes : List Nat := [72, 65, 76, 84, 10]

def trap_HALT (s : VM) : VM :=
  { putBytes s haltBytes with status := Status.halted }

def op_TRAP (instr : Nat) (s : VM) : VM :=
  let s1 : VM := { s with reg := upd s.reg R_R7 (s.reg R_PC) }
  let v := instr &&& 0xff
  if v = TRAP_GETC then trap_GETC s1
  else if v = TRAP_OUT then trap_OUT s1
  else if v = TRAP_PUTS then trap_PUTS s1
  else if v = TRAP_IN then trap_IN s1
  else if v = TRAP_PUTSP then trap_PUTSP s1
  else if v = TRAP_HALT then trap_HALT s1
  else s1

/-- The `switch (op)` of `main`, on the fetched word. -/
def exec (instr : Nat) (s : VM) : VM :=
  let op := instr >>> 12
  if op = OP_ADD then op_ADD instr s
  else if op = OP_AND then op_AND instr s
  else if op = OP_NOT then op_NOT instr s
  else if op = OP_BR then op_BR instr s
  else if op = OP_JMP then op_JMP instr s
  else if op = OP_JSR then op_JSR instr s
  else if op = OP_LD then op_LD instr s
  else if op = OP_LDI then op_LDI instr s
  else if op = OP_LDR then op_LDR instr s
  else if op = OP_LEA then op_LEA instr s
  else if op = OP_ST then op_ST instr s
  else if op = OP_STI then op_STI instr s
  else if op = OP_STR then op_STR instr s
  else if op = OP_TRAP then op_TRAP instr s
  else if op = OP_RES ∨ op = OP_RTI then { s with status := Status.aborted }
  else s

/-- One iteration of `while (running)`. -/
def step (s : VM) : VM :=
  let f := fetch s
  exec f.1 f.2

/-- At most `n` iterations of the loop, which stops as soon as the status is
no longer `running`. -/
def run : Nat → VM → VM
  | 0, s => s
  | n + 1, s => if s.status = Status.running then run n (step s) else s

/-! ## The image loader -/

/-- The `uint16_t` that two consecutive bytes form in the memory of a
little-endian host, the only kind of host on which `read_image_file` loads
big-endian images correctly. -/
def word_of_bytes (b0 b1 : Nat) : Nat := b0 % 256 + 256 * (b1 % 256)

/-- The call `fread(memory + p, sizeof(uint16_t), count, file)`: the memory
afterwards and the number of complete elements read.  When a single byte is
left for an element that was asked for, C leaves that element indeterminate:
`partialElem old b` stands for what the library makes of it. -/
def fread (partialElem : Nat → Nat → Nat) :
    (Nat → Nat) → Nat → Nat → List Nat → (Nat → Nat) × Nat
  | memory, _, 0, _ => (memory, 0)
  | memory, _, _ + 1, [] => (memory, 0)
  | memory, p, _ + 1, [b] => (upd memory p (partialElem (memory p) b), 0)
  | memory, p, n + 1, b0 :: b1 :: rest =>
    let r := fread partialElem (upd memory p (word_of_bytes b0 b1)) (p + 1) n rest
    (r.1, r.2 + 1)

/-- The loop `while (read-- > 0) { *p = swap16(*p); ++p; }`. -/
def swap_loop (memory : Nat → Nat) : Nat → Nat → (Nat → Nat)
  | _, 0 => memory
  | p, n + 1 => swap_loop (upd memory p (swap16 (memory p))) (p + 1) n

/-- The function `read_image_file` on the bytes of the opened file.  `junk` is
what the local `origin` holds when its `fread` did not get two bytes. -/
def read_image_file (partialElem : Nat → Nat → Nat) (junk : Nat)
    (file : List Nat) (memory : Nat → Nat) : Nat → Nat :=
  let origin0 :=
    match file with
    | b0 :: b1 :: _ => word_of_bytes b0 b1
    | _ => junk
  let origin := swap16 origin0
  let max_read := (MEMORY_MAX - origin) % 65536
  let r := fread partialElem memory origin max_read (file.drop 2)
  swap_loop r.1 origin r.2

/-- The function `read_image`; `none` is a path `fopen` cannot open.  Returns
the `int` result and the memory. -/
def read_image (partialElem : Nat → Nat → Nat) (junk : Nat)
    (file : Option (List Nat)) (memory : Nat → Nat) : Nat × (Nat → Nat) :=
  match file with
  | none => (0, memory)
  | some bytes => (1, read_image_file partialElem junk bytes memory)

/-- The loading loop of `main`; `none` is `exit(1)`. -/
def load_images (partialElem : Nat → Nat → Nat) (junk : Nat) :
    List (Option (List Nat)) → (Nat → Nat) → Option (Nat → Nat)
  | [], memory => some memory
  | f :: fs, memory =>
    let r := read_image partialElem junk f memory
    if r.1 = 0 then none else load_images partialElem junk fs r.2

/-- The state in which `main` enters its loop: the globals are zero but for
what the loader wrote, `COND = FL_ZRO` and `PC = PC_START`. -/
def boot (memory : Nat → Nat) (stdin : List Nat) (ready : List Bool)
    (charSigned : Bool) : VM :=
  { memory := memory
    reg := upd (upd (fun _ => 0) R_COND FL_ZRO) R_PC PC_START
    stdin := stdin
    ready := ready
    stdout := []
    charSigned := charSigned
    status := Status.running }

/-! ## Images as byte sequences -/

/-- The two bytes of a word, high byte first. -/
def be_bytes (w : Nat) : List Nat := [w / 256 % 256, w % 256]

/-- The byte sequence of an image: the origin, then each word, big-endian. -/
def image (origin : Nat) (words : List Nat) : List Nat :=
  be_bytes origin ++ words.flatMap be_bytes

/-- The machine booted on zeroed memory into which one image was loaded at
`0x3000`, with no host input. -/
def bootProgram (words : List Nat) : VM :=
  boot (read_image_file (fun old _ => old) 0 (image 0x3000 words) (fun _ => 0)) [] [] true

/-- The booted machine whose memory is zero but for the word `w` at `0x3000`;
no host input. -/
def oneWord (w : Nat) : VM :=
  boot (upd (fun _ => 0) PC_START w) [] [] true

/-- Whether the two bytes of the origin can be read from the byte source, a
source that cannot be opened yielding none. -/
def origin_readable (file : Option (List Nat)) : Bool :=
  match file with
  | none => false
  | some bytes => decide (2 ≤ bytes.length)

/-- The booted machine whose memory is zero but for the word `w` at `0x3000`,
with the given host input and signedness of `char`. -/
def oneWordHost (w : Nat) (stdin : List Nat) (ready : List Bool) (charSigned : Bool) : VM :=
  boot (upd (fun _ => 0) PC_START w) stdin ready charSigned

/-- The invariant of the run of the JSR scenario `[0x4802, 0xF025, 0xC1C0]`
with no host input: the loop is running on the memory of the scenario, and `PC`
is neither `0x3001` nor `0x3002`. -/
def jsrInv (s : VM) : Prop :=
  s.status = Status.running ∧ s.ready = [] ∧
  (∀ a, s.memory a = (bootProgram [0x4802, 0xF025, 0xC1C0]).memory a) ∧
  s.reg R_PC < 65536 ∧ s.reg R_PC ≠ 0x3001 ∧ s.reg R_PC ≠ 0x3002

/-- What the C libraries in common use leave in a half-read element on a
little-endian host: the byte read is stored in the first byte of the element,
its low byte, and the high byte keeps its old value. -/
def partial_low_byte (old b : Nat) : Nat := old / 256 * 256 + b % 256

/-- The PUTS scenario after its LEA: `R0 = 0x3004` and the next word is TRAP
PUTS. -/
def putsDemo : VM :=
  run 1 (bootProgram [0xE003, 0xF022, 0xF025, 0x0048, 0x0069, 0x0000])

/-- A packed string after its LEA: `R0 = 0x3003`, the next word is TRAP PUTSP,
and the string is `0x6948, 0x0021, 0x0000`. -/
def putspDemo : VM :=
  run 1 (bootProgram [0xE002, 0xF024, 0xF025, 0x6948, 0x0021, 0x0000])

/-! ## Basic facts -/

theorem FL_POS_eq : FL_POS = 1 := rfl

theorem FL_ZRO_eq : FL_ZRO = 2 := rfl

theorem FL_NEG_eq : FL_NEG = 4 := rfl

theorem MEMORY_MAX_eq : MEMORY_MAX = 65536 := rfl

theorem upd_same (a : Nat → Nat) (i v : Nat) : upd a i v i = v := by
  simp [upd]

theorem upd_ne (a : Nat → Nat) (i v j : Nat) (h : j ≠ i) : upd a i v j = a j := by
  simp [upd, h]

theorem field_le (x m : Nat) : x &&& m ≤ m := Nat.and_le_right

theorem testBit15 (x : Nat) (h : x < 65536) : x.testBit 15 = decide (32768 ≤ x) := by
  rw [Nat.testBit_to_div_mod]
  have h1 : x / 2 ^ 15 % 2 = 1 ↔ 32768 ≤ x := by
    have : x / 2 ^ 15 = x / 32768 := by norm_num
    rw [this]
    omega
  exact decide_eq_decide.2 h1

theorem shr15_ne_zero (x : Nat) : x >>> 15 ≠ 0 ↔ 32768 ≤ x := by
  rw [Nat.shiftRight_eq_div_pow]
  have : x / 2 ^ 15 = x / 32768 := by norm_num
  rw [this]
  omega

/-! ## What `update_flags` does -/

theorem update_flags_reg (s : VM) (r j : Nat) (hj : j ≠ R_COND) :
    (update_flags s r).reg j = s.reg j := by
  unfold update_flags
  split_ifs <;> simp [upd_ne _ _ _ _ hj]

theorem update_flags_cond (s : VM) (r : Nat) :
    (update_flags s r).reg R_COND =
      if s.reg r = 0 then FL_ZRO else if 32768 ≤ s.reg r then FL_NEG else FL_POS := by
  unfold update_flags
  by_cases h0 : s.reg r = 0
  · simp [h0, upd_same]
  · by_cases h1 : 32768 ≤ s.reg r
    · have := (shr15_ne_zero (s.reg r)).2 h1
      simp [h0, h1, this, upd_same]
    · have : ¬ (s.reg r >>> 15 ≠ 0) := fun h => h1 ((shr15_ne_zero _).1 h)
      simp [h0, h1, this, upd_same]

theorem update_flags_memory (s : VM) (r : Nat) : (update_flags s r).memory = s.memory := by
  unfold update_flags
  split_ifs <;> rfl

/-- The flag discipline in one place: after `update_flags` on a register
`r ≤ 7` that holds a 16-bit value, `COND` is one of the three flags and says
whether that register is zero, has bit 15 set, or neither. -/
theorem update_flags_spec (s : VM) (r : Nat) (hr : r ≤ 7) (hv : s.reg r < 65536) :
    let t := update_flags s r
    (t.reg R_COND = FL_POS ∨ t.reg R_COND = FL_ZRO ∨ t.reg R_COND = FL_NEG) ∧
    (t.reg R_COND = FL_ZRO ↔ t.reg r = 0) ∧
    (t.reg R_COND = FL_NEG ↔ (t.reg r).testBit 15 = true) ∧
    (t.reg R_COND = FL_POS ↔ (t.reg r ≠ 0 ∧ (t.reg r).testBit 15 = false)) := by
  intro t
  have hr9 : r ≠ R_COND := by simp only [R_COND]; omega
  have hreg : t.reg r = s.reg r := update_flags_reg s r r hr9
  have hc := update_flags_cond s r
  rw [hreg, testBit15 _ hv]
  show (((update_flags s r).reg R_COND = FL_POS ∨ _) ∧ _)
  rw [hc]
  by_cases h0 : s.reg r = 0
  · simp [h0, FL_POS_eq, FL_ZRO_eq, FL_NEG_eq]
  · by_cases h1 : 32768 ≤ s.reg r
    · simp [h0, h1, FL_POS_eq, FL_ZRO_eq, FL_NEG_eq]
    · simp [h0, h1, FL_POS_eq, FL_ZRO_eq, FL_NEG_eq]

/-! ## What `mem_read` and the fetch do -/

theorem check_key_fields (s : VM) :
    (check_key s).2.memory = s.memory ∧ (check_key s).2.reg = s.reg ∧
    (check_key s).2.stdin = s.stdin ∧ (check_key s).2.stdout = s.stdout ∧
    (check_key s).2.charSigned = s.charSigned ∧ (check_key s).2.status = s.status := by
  unfold check_key
  split <;> simp

theorem getchar_range (s : VM) : -1 ≤ (getchar s).1 ∧ (getchar s).1 < 256 := by
  unfold getchar
  split
  · simp
  · constructor
    · simp only []; omega
    · simp only []; omega

theorem u16_lt (v : Int) : u16 v < 65536 := by
  unfold u16
  omega

theorem mem_read_plain (s : VM) (a : Nat) (h : a ≠ MR_KBSR) :
    mem_read s a = (s.memory a, s) := by
  simp [mem_read, h]

/-- The four ways a read of `KBSR` can go, spelled out. -/
theorem mem_read_kbsr_cases (s : VM) :
    (∃ c cs rs, s.stdin = c :: cs ∧ s.ready = true :: rs ∧
      mem_read s MR_KBSR = (32768,
        { s with memory := upd (upd s.memory MR_KBSR 32768) MR_KBDR (c % 256),
                 stdin := cs, ready := rs })) ∨
    (∃ rs, s.stdin = [] ∧ s.ready = true :: rs ∧
      mem_read s MR_KBSR = (32768,
        { s with memory := upd (upd s.memory MR_KBSR 32768) MR_KBDR 65535,
                 ready := rs })) ∨
    (∃ rs, s.ready = false :: rs ∧
      mem_read s MR_KBSR = (0, { s with memory := upd s.memory MR_KBSR 0, ready := rs })) ∨
    (s.ready = [] ∧
      mem_read s MR_KBSR = (0, { s with memory := upd s.memory MR_KBSR 0 })) := by
  rcases s with ⟨m, r, i, k, o, c, st⟩
  rcases k with _ | ⟨b, k⟩
  · right; right; right
    simp [mem_read, check_key, upd]
  · cases b
    · right; right; left
      exact ⟨k, rfl, by simp [mem_read, check_key, upd]⟩
    · rcases i with _ | ⟨x, i⟩
      · right; left
        refine ⟨k, rfl, rfl, ?_⟩
        simp [mem_read, check_key, getchar, upd, u16]
      · left
        refine ⟨x, i, k, rfl, rfl, ?_⟩
        have hx : u16 ((x : Int) % 256) = x % 256 := by
          unfold u16
          omega
        simp [mem_read, check_key, getchar, hx]
        simp [upd]

theorem mem_read_reg (s : VM) (a : Nat) : (mem_read s a).2.reg = s.reg := by
  by_cases h : a = MR_KBSR
  · subst h
    rcases mem_read_kbsr_cases s with
      ⟨_, _, _, _, _, h⟩ | ⟨_, _, _, h⟩ | ⟨_, _, h⟩ | ⟨_, h⟩ <;> rw [h]
  · rw [mem_read_plain s a h]

theorem mem_read_status (s : VM) (a : Nat) : (mem_read s a).2.status = s.status := by
  by_cases h : a = MR_KBSR
  · subst h
    rcases mem_read_kbsr_cases s with
      ⟨_, _, _, _, _, h⟩ | ⟨_, _, _, h⟩ | ⟨_, _, h⟩ | ⟨_, h⟩ <;> rw [h]
  · rw [mem_read_plain s a h]

theorem mem_read_stdout (s : VM) (a : Nat) : (mem_read s a).2.stdout = s.stdout := by
  by_cases h : a = MR_KBSR
  · subst h
    rcases mem_read_kbsr_cases s with
      ⟨_, _, _, _, _, h⟩ | ⟨_, _, _, h⟩ | ⟨_, _, h⟩ | ⟨_, h⟩ <;> rw [h]
  · rw [mem_read_plain s a h]

theorem mem_read_charSigned (s : VM) (a : Nat) :
    (mem_read s a).2.charSigned = s.charSigned := by
  by_cases h : a = MR_KBSR
  · subst h
    rcases mem_read_kbsr_cases s with
      ⟨_, _, _, _, _, h⟩ | ⟨_, _, _, h⟩ | ⟨_, _, h⟩ | ⟨_, h⟩ <;> rw [h]
  · rw [mem_read_plain s a h]

theorem mem_read_fst (s : VM) (a : Nat) : (mem_read s a).1 = (mem_read s a).2.memory a := by
  by_cases h : a = MR_KBSR
  · subst h
    rcases mem_read_kbsr_cases s with
      ⟨_, _, _, _, _, h⟩ | ⟨_, _, _, h⟩ | ⟨_, _, h⟩ | ⟨_, h⟩ <;>
      rw [h] <;> simp [upd]
  · rw [mem_read_plain s a h]

theorem upd_lt (m : Nat → Nat) (i v : Nat) (hm : ∀ a, m a < 65536) (hv : v < 65536) :
    ∀ a, upd m i v a < 65536 := by
  intro a
  unfold upd
  split_ifs
  · exact hv
  · exact hm a

theorem mem_read_memory_lt (s : VM) (a : Nat) (h : ∀ b, s.memory b < 65536) :
    ∀ b, (mem_read s a).2.memory b < 65536 := by
  by_cases ha : a = MR_KBSR
  · subst ha
    rcases mem_read_kbsr_cases s with
      ⟨c, _, _, _, _, hm⟩ | ⟨_, _, _, hm⟩ | ⟨_, _, hm⟩ | ⟨_, hm⟩ <;> rw [hm]
    · exact upd_lt _ _ _ (upd_lt _ _ _ h (by norm_num)) (by omega)
    · exact upd_lt _ _ _ (upd_lt _ _ _ h (by norm_num)) (by norm_num)
    · exact upd_lt _ _ _ h (by norm_num)
    · exact upd_lt _ _ _ h (by norm_num)
  · rw [mem_read_plain s a ha]
    exact h

theorem mem_read_wf (s : VM) (a : Nat) (h : WF s) : WF (mem_read s a).2 :=
  ⟨mem_read_memory_lt s a h.1, by rw [mem_read_reg]; exact h.2⟩

theorem mem_read_lt (s : VM) (a : Nat) (h : ∀ b, s.memory b < 65536) :
    (mem_read s a).1 < 65536 := by
  rw [mem_read_fst]
  exact mem_read_memory_lt s a h a

theorem fetch_reg (s : VM) :
    (fetch s).2.reg = upd s.reg R_PC ((s.reg R_PC + 1) % 65536) := by
  unfold fetch
  rw [mem_read_reg]

theorem fetch_reg_low (s : VM) (j : Nat) (hj : j ≤ 7) : (fetch s).2.reg j = s.reg j := by
  rw [fetch_reg, upd_ne]
  simp only [R_PC]; omega

theorem fetch_reg_cond (s : VM) : (fetch s).2.reg R_COND = s.reg R_COND := by
  rw [fetch_reg, upd_ne]
  simp

theorem fetch_reg_pc (s : VM) : (fetch s).2.reg R_PC = (s.reg R_PC + 1) % 65536 := by
  rw [fetch_reg, upd_same]

theorem fetch_plain (s : VM) (h : s.reg R_PC ≠ MR_KBSR) :
    fetch s = (s.memory (s.reg R_PC),
      { s with reg := upd s.reg R_PC ((s.reg R_PC + 1) % 65536) }) := by
  unfold fetch
  rw [mem_read_plain _ _ h]

theorem fetch_wf (s : VM) (h : WF s) : WF (fetch s).2 := by
  unfold fetch
  apply mem_read_wf
  exact ⟨h.1, upd_lt _ _ _ h.2 (Nat.mod_lt _ (by norm_num))⟩

theorem fetch_lt (s : VM) (h : WF s) : (fetch s).1 < 65536 := by
  unfold fetch
  exact mem_read_lt _ _ h.1

/-! ## Dispatch -/

theorem exec_ADD (i : Nat) (s : VM) (h : i >>> 12 = OP_ADD) : exec i s = op_ADD i s := by
  simp [exec, h]

theorem exec_AND (i : Nat) (s : VM) (h : i >>> 12 = OP_AND) : exec i s = op_AND i s := by
  simp [exec, h]

theorem exec_NOT (i : Nat) (s : VM) (h : i >>> 12 = OP_NOT) : exec i s = op_NOT i s := by
  simp [exec, h]

theorem exec_BR (i : Nat) (s : VM) (h : i >>> 12 = OP_BR) : exec i s = op_BR i s := by
  simp [exec, h]

theorem exec_JSR (i : Nat) (s : VM) (h : i >>> 12 = OP_JSR) : exec i s = op_JSR i s := by
  simp [exec, h]

theorem exec_LD (i : Nat) (s : VM) (h : i >>> 12 = OP_LD) : exec i s = op_LD i s := by
  simp [exec, h]

theorem exec_LDI (i : Nat) (s : VM) (h : i >>> 12 = OP_LDI) : exec i s = op_LDI i s := by
  simp [exec, h]

theorem exec_LDR (i : Nat) (s : VM) (h : i >>> 12 = OP_LDR) : exec i s = op_LDR i s := by
  simp [exec, h]

theorem exec_LEA (i : Nat) (s : VM) (h : i >>> 12 = OP_LEA) : exec i s = op_LEA i s := by
  simp [exec, h]

theorem exec_ST (i : Nat) (s : VM) (h : i >>> 12 = OP_ST) : exec i s = op_ST i s := by
  simp [exec, h]

theorem exec_STI (i : Nat) (s : VM) (h : i >>> 12 = OP_STI) : exec i s = op_STI i s := by
  simp [exec, h]

theorem exec_STR (i : Nat) (s : VM) (h : i >>> 12 = OP_STR) : exec i s = op_STR i s := by
  simp [exec, h]

theorem exec_TRAP (i : Nat) (s : VM) (h : i >>> 12 = OP_TRAP) : exec i s = op_TRAP i s := by
  simp [exec, h]

/-! ## C1: the condition flags after a flag-setting instruction -/

/-- C1. For every well-formed state whose fetched word has opcode ADD, AND,
NOT, LD, LDI, LDR or LEA, after the instruction `COND` is one of POS (1),
ZRO (2), NEG (4); it is ZRO iff the final value of the destination register
DR (bits 11..9) is 0, NEG iff bit 15 of DR is set, and POS otherwise. -/
theorem cond_matches_destination (s : VM) (hwf : WF s)
    (hop : (fetch s).1 >>> 12 = OP_ADD ∨ (fetch s).1 >>> 12 = OP_AND ∨
      (fetch s).1 >>> 12 = OP_NOT ∨ (fetch s).1 >>> 12 = OP_LD ∨
      (fetch s).1 >>> 12 = OP_LDI ∨ (fetch s).1 >>> 12 = OP_LDR ∨
      (fetch s).1 >>> 12 = OP_LEA) :
    ((step s).reg R_COND = 1 ∨ (step s).reg R_COND = 2 ∨ (step s).reg R_COND = 4) ∧
    ((step s).reg R_COND = 2 ↔ (step s).reg (((fetch s).1 >>> 9) &&& 7) = 0) ∧
    ((step s).reg R_COND = 4 ↔
      ((step s).reg (((fetch s).1 >>> 9) &&& 7)).testBit 15 = true) ∧
    ((step s).reg R_COND = 1 ↔
      ((step s).reg (((fetch s).1 >>> 9) &&& 7) ≠ 0 ∧
        ((step s).reg (((fetch s).1 >>> 9) &&& 7)).testBit 15 = false)) := by
  have hm := (fetch_wf s hwf).1
  have hlt : ∀ x : Nat, x % 65536 < 65536 := fun x => Nat.mod_lt _ (by norm_num)
  unfold step
  rcases hop with h | h | h | h | h | h | h
  · rw [exec_ADD _ _ h]
    refine update_flags_spec _ _ (field_le _ _) ?_
    split_ifs <;> simp only [upd_same] <;> exact hlt _
  · rw [exec_AND _ _ h]
    refine update_flags_spec _ _ (field_le _ _) ?_
    split_ifs <;> simp only [upd_same] <;> exact hlt _
  · rw [exec_NOT _ _ h]
    refine update_flags_spec _ _ (field_le _ _) ?_
    simp only [upd_same]; exact hlt _
  · rw [exec_LD _ _ h]
    refine update_flags_spec _ _ (field_le _ _) ?_
    simp only [upd_same]
    exact mem_read_lt _ _ hm
  · rw [exec_LDI _ _ h]
    refine update_flags_spec _ _ (field_le _ _) ?_
    simp only [upd_same]
    exact mem_read_lt _ _ (mem_read_memory_lt _ _ hm)
  · rw [exec_LDR _ _ h]
    refine update_flags_spec _ _ (field_le _ _) ?_
    simp only [upd_same]
    exact mem_read_lt _ _ hm
  · rw [exec_LEA _ _ h]
    refine update_flags_spec _ _ (field_le _ _) ?_
    simp only [upd_same]; exact hlt _

theorem update_flags_status (s : VM) (r : Nat) : (update_flags s r).status = s.status := by
  unfold update_flags
  split_ifs <;> rfl

theorem fetch_status (s : VM) : (fetch s).2.status = s.status := by
  unfold fetch
  rw [mem_read_status]

theorem sign_extend_zero (n : Nat) : sign_extend 0 n = 0 := by
  simp [sign_extend]

/-! ## C2: ADD -/

/-- C2. For every state whose fetched word is an ADD, afterwards
`DR = (SR1 + operand) mod 2^16`, the operand being `SR2` (bits 2..0) when bit 5
is 0 and `signext(imm5)` when bit 5 is 1, both sources read before `DR` is
written; the status of the machine is untouched, so overflow raises nothing.
With `SR1 = 0x7FFF` and operand 1 the result is `0x8000` and `COND = NEG`, and
the program `[0x1020, 0x1025, 0xF025]` at `0x3000` halts with `R0 = 5`,
`COND = POS`. -/
theorem add_wraps_mod_2_16 (s : VM) (h : (fetch s).1 >>> 12 = OP_ADD) :
    (step s).reg (((fetch s).1 >>> 9) &&& 7) =
      (s.reg (((fetch s).1 >>> 6) &&& 7) +
        (if ((fetch s).1 >>> 5) &&& 1 = 0 then s.reg ((fetch s).1 &&& 7)
         else sign_extend ((fetch s).1 &&& 0x1f) 5)) % 65536 ∧
    (step s).status = s.status ∧
    ((if ((fetch s).1 >>> 5) &&& 1 = 0 then s.reg ((fetch s).1 &&& 7)
        else sign_extend ((fetch s).1 &&& 0x1f) 5) = 1 →
      s.reg (((fetch s).1 >>> 6) &&& 7) = 0x7FFF →
      (step s).reg (((fetch s).1 >>> 9) &&& 7) = 0x8000 ∧ (step s).reg R_COND = 4) ∧
    ((run 3 (bootProgram [0x1020, 0x1025, 0xF025])).reg 0 = 5 ∧
      (run 3 (bootProgram [0x1020, 0x1025, 0xF025])).reg R_COND = 1 ∧
      (run 3 (bootProgram [0x1020, 0x1025, 0xF025])).status = Status.halted) := by
  have hdr : ((fetch s).1 >>> 9) &&& 7 ≠ R_COND := by
    have := field_le ((fetch s).1 >>> 9) 7
    simp only [R_COND]; omega
  have h1 := fetch_reg_low s _ (field_le ((fetch s).1 >>> 6) 7)
  have h2 := fetch_reg_low s _ (field_le ((fetch s).1) 7)
  have key : (step s).reg (((fetch s).1 >>> 9) &&& 7) =
      (s.reg (((fetch s).1 >>> 6) &&& 7) +
        (if ((fetch s).1 >>> 5) &&& 1 = 0 then s.reg ((fetch s).1 &&& 7)
         else sign_extend ((fetch s).1 &&& 0x1f) 5)) % 65536 := by
    unfold step
    rw [exec_ADD _ _ h]
    unfold op_ADD
    rw [update_flags_reg _ _ _ hdr]
    by_cases hf : ((fetch s).1 >>> 5) &&& 1 = 0
    · have hn : ¬ (((fetch s).1 >>> 5) &&& 1 ≠ 0) := fun hx => hx hf
      simp only [if_neg hn, if_pos hf, upd_same, h1, h2]
    · have hn : ((fetch s).1 >>> 5) &&& 1 ≠ 0 := hf
      simp only [if_pos hn, if_neg hf, upd_same, h1]
  have hcond : (step s).reg R_COND =
      if (step s).reg (((fetch s).1 >>> 9) &&& 7) = 0 then FL_ZRO
      else if 32768 ≤ (step s).reg (((fetch s).1 >>> 9) &&& 7) then FL_NEG else FL_POS := by
    unfold step
    rw [exec_ADD _ _ h]
    unfold op_ADD
    rw [update_flags_cond, update_flags_reg _ _ _ hdr]
  refine ⟨key, ?_, ?_, by decide, by decide, by decide⟩
  · unfold step
    rw [exec_ADD _ _ h]
    unfold op_ADD
    rw [update_flags_status]
    split_ifs <;> exact fetch_status s
  · intro ho hs
    rw [hcond, key, ho, hs]
    simp [FL_NEG_eq]

/-! ## C3: BR -/

/-- C3. For every state whose fetched word is a BR, with `pre` the `PC` before
the fetch: the branch is taken iff bits 11..9 of the word AND `COND` is
nonzero; a taken branch leaves `PC = (pre + 1 + signext(off9)) mod 2^16`, the
other `PC = (pre + 1) mod 2^16`; `COND` and `R0..R7` keep their values.  So a BR
with `n = z = p = 0` and a BR with offset 0 both leave `PC = pre + 1`. -/
theorem br_pc_and_frame (s : VM) (h : (fetch s).1 >>> 12 = OP_BR) :
    ((((fetch s).1 >>> 9) &&& 7) &&& s.reg R_COND ≠ 0 →
      (step s).reg R_PC =
        (s.reg R_PC + 1 + sign_extend ((fetch s).1 &&& 0x1ff) 9) % 65536) ∧
    ((((fetch s).1 >>> 9) &&& 7) &&& s.reg R_COND = 0 →
      (step s).reg R_PC = (s.reg R_PC + 1) % 65536) ∧
    (step s).reg R_COND = s.reg R_COND ∧
    (∀ j, j ≤ 7 → (step s).reg j = s.reg j) ∧
    (((fetch s).1 >>> 9) &&& 7 = 0 → (step s).reg R_PC = (s.reg R_PC + 1) % 65536) ∧
    ((fetch s).1 &&& 0x1ff = 0 → (step s).reg R_PC = (s.reg R_PC + 1) % 65536) := by
  have hstep : step s = op_BR (fetch s).1 (fetch s).2 := by
    unfold step
    rw [exec_BR _ _ h]
  have hc := fetch_reg_cond s
  have hpc := fetch_reg_pc s
  have taken : (((fetch s).1 >>> 9) &&& 7) &&& s.reg R_COND ≠ 0 →
      (step s).reg R_PC =
        (s.reg R_PC + 1 + sign_extend ((fetch s).1 &&& 0x1ff) 9) % 65536 := by
    intro ht
    rw [hstep]
    unfold op_BR
    rw [hc]
    simp only [ht, ne_eq, not_false_eq_true, if_true, upd_same, hpc]
    omega
  have fall : (((fetch s).1 >>> 9) &&& 7) &&& s.reg R_COND = 0 →
      (step s).reg R_PC = (s.reg R_PC + 1) % 65536 := by
    intro ht
    rw [hstep]
    unfold op_BR
    rw [hc]
    simp only [ht, ne_eq, not_true_eq_false, if_false, hpc]
  refine ⟨taken, fall, ?_, ?_, ?_, ?_⟩
  · rw [hstep]
    unfold op_BR
    dsimp only
    split_ifs
    · dsimp only
      rw [upd_ne _ _ _ _ (by simp), hc]
    · exact hc
  · intro j hj
    rw [hstep]
    unfold op_BR
    dsimp only
    split_ifs
    · show upd _ _ _ _ = _
      rw [upd_ne _ _ _ _ (by simp only [R_PC]; omega), fetch_reg_low s j hj]
    · exact fetch_reg_low s j hj
  · intro hz
    apply fall
    rw [hz, Nat.zero_and]
  · intro hz
    by_cases ht : (((fetch s).1 >>> 9) &&& 7) &&& s.reg R_COND = 0
    · exact fall ht
    · rw [taken ht, hz, sign_extend_zero]

/-! ## C4: JSR -/

/-- C4. For every state whose fetched word is a JSR (opcode 4), with `pre` the
`PC` before the fetch: afterwards `R7 = (pre + 1) mod 2^16` in both modes; with
bit 11 set the new `PC` is `(pre + 1 + signext(off11)) mod 2^16`; with bit 11
clear it is `BaseR` (bits 8..6) read after `R7` was written, that is the old
`BaseR` when `BaseR ≠ 7` and `(pre + 1) mod 2^16` when `BaseR = 7`.  `COND` keeps
its value. -/
theorem jsr_link_and_target (s : VM) (h : (fetch s).1 >>> 12 = OP_JSR) :
    (((fetch s).1 >>> 11) &&& 1 = 1 →
      (step s).reg R_R7 = (s.reg R_PC + 1) % 65536 ∧
      (step s).reg R_PC =
        (s.reg R_PC + 1 + sign_extend ((fetch s).1 &&& 0x7ff) 11) % 65536) ∧
    (((fetch s).1 >>> 11) &&& 1 = 0 →
      (step s).reg R_R7 = (s.reg R_PC + 1) % 65536 ∧
      (((fetch s).1 >>> 6) &&& 7 ≠ 7 →
        (step s).reg R_PC = s.reg (((fetch s).1 >>> 6) &&& 7)) ∧
      (((fetch s).1 >>> 6) &&& 7 = 7 → (step s).reg R_PC = (s.reg R_PC + 1) % 65536)) ∧
    (step s).reg R_COND = s.reg R_COND := by
  have hstep : step s = op_JSR (fetch s).1 (fetch s).2 := by
    unfold step
    rw [exec_JSR _ _ h]
  have hc := fetch_reg_cond s
  have hpc := fetch_reg_pc s
  have hb := field_le ((fetch s).1 >>> 6) 7
  refine ⟨?_, ?_, ?_⟩
  · intro h1
    rw [hstep]
    unfold op_JSR
    simp only [h1, ne_eq, one_ne_zero, not_false_eq_true, if_true, upd_same]
    rw [upd_ne _ _ _ _ (by simp), upd_same, upd_ne _ _ _ _ (by simp), hpc]
    exact ⟨rfl, by omega⟩
  · intro h0
    rw [hstep]
    unfold op_JSR
    simp only [h0, ne_eq, not_true_eq_false, if_false, upd_same]
    rw [upd_ne _ _ _ _ (by simp), upd_same, hpc]
    refine ⟨rfl, ?_, ?_⟩
    · intro hne
      rw [upd_ne _ _ _ _ hne]
      exact fetch_reg_low s _ hb
    · intro he
      rw [he, upd_same]
  · rw [hstep]
    unfold op_JSR
    dsimp only
    split_ifs
    · dsimp only
      rw [upd_ne _ _ _ _ (by simp), upd_ne _ _ _ _ (by simp), hc]
    · dsimp only
      rw [upd_ne _ _ _ _ (by simp), upd_ne _ _ _ _ (by simp), hc]

/-! ## C5: LDI -/

/-- LDI when neither the pointer cell nor the pointed cell is `KBSR`, on the
state after the fetch. -/
theorem op_LDI_plain (i : Nat) (t : VM)
    (ha : (t.reg R_PC + sign_extend (i &&& 0x1ff) 9) % 65536 ≠ MR_KBSR)
    (hp : t.memory ((t.reg R_PC + sign_extend (i &&& 0x1ff) 9) % 65536) ≠ MR_KBSR) :
    (op_LDI i t).reg ((i >>> 9) &&& 7) =
      t.memory (t.memory ((t.reg R_PC + sign_extend (i &&& 0x1ff) 9) % 65536)) ∧
    (op_LDI i t).reg R_PC = t.reg R_PC ∧
    (op_LDI i t).memory = t.memory := by
  have hdr := field_le (i >>> 9) 7
  unfold op_LDI
  dsimp only
  rw [mem_read_plain t _ ha]
  dsimp only
  rw [mem_read_plain t _ hp]
  refine ⟨?_, ?_, ?_⟩
  · rw [update_flags_reg _ _ _ (by simp only [R_COND]; omega)]
    exact upd_same _ _ _
  · rw [update_flags_reg _ _ _ (by simp)]
    exact upd_ne _ _ _ _ (by simp only [R_PC]; omega)
  · rw [update_flags_memory]

/-- One LDI step from a state whose `PC`, pointer cell and pointed cell are all
different from `KBSR`; `i` is the word stored at `PC`. -/
theorem step_LDI_plain (s : VM) (i : Nat) (hi : s.memory (s.reg R_PC) = i)
    (h : i >>> 12 = OP_LDI) (hpre : s.reg R_PC ≠ MR_KBSR)
    (ha : (s.reg R_PC + 1 + sign_extend (i &&& 0x1ff) 9) % 65536 ≠ MR_KBSR)
    (hp : s.memory ((s.reg R_PC + 1 + sign_extend (i &&& 0x1ff) 9) % 65536) ≠ MR_KBSR) :
    (step s).reg ((i >>> 9) &&& 7) =
      s.memory (s.memory ((s.reg R_PC + 1 + sign_extend (i &&& 0x1ff) 9) % 65536)) ∧
    (step s).reg R_PC = (s.reg R_PC + 1) % 65536 ∧
    (step s).memory = s.memory := by
  have hf := fetch_plain s hpre
  have hmod : ∀ x : Nat, ((s.reg R_PC + 1) % 65536 + x) % 65536 =
      (s.reg R_PC + 1 + x) % 65536 := fun x => by omega
  have hi1 : (fetch s).1 = i := by rw [hf]; exact hi
  have hpc : (fetch s).2.reg R_PC = (s.reg R_PC + 1) % 65536 := fetch_reg_pc s
  have hmem : (fetch s).2.memory = s.memory := by rw [hf]
  have core := op_LDI_plain i (fetch s).2
    (by rw [hpc, hmod]; exact ha) (by rw [hpc, hmod, hmem]; exact hp)
  rw [hpc, hmod, hmem] at core
  unfold step
  dsimp only
  rw [hi1, exec_LDI _ _ h]
  exact core

/-- C5. For every state whose fetched word is an LDI, with `pre` the `PC`
before the fetch, `a = (pre + 1 + signext(off9)) mod 2^16` and `p = mem[a]`: if
none of `pre`, `a`, `p` is `0xFE00`, then afterwards `DR = mem[p]`,
`PC = (pre + 1) mod 2^16` and memory is as before.  Storing another pointer `q`
at `a` makes the same instruction load `mem[q]`.  The program
`[0xA003, 0xF025, 0, 0, 0x3006, 0, 0x002A]` at `0x3000` halts with
`R0 = 0x002A` and `COND = POS`. -/
theorem ldi_loads_through_pointer (s : VM) (h : (fetch s).1 >>> 12 = OP_LDI)
    (hpre : s.reg R_PC ≠ 0xFE00)
    (ha : (s.reg R_PC + 1 + sign_extend ((fetch s).1 &&& 0x1ff) 9) % 65536 ≠ 0xFE00)
    (hp : s.memory ((s.reg R_PC + 1 + sign_extend ((fetch s).1 &&& 0x1ff) 9) % 65536)
      ≠ 0xFE00) :
    (step s).reg (((fetch s).1 >>> 9) &&& 7) =
      s.memory (s.memory
        ((s.reg R_PC + 1 + sign_extend ((fetch s).1 &&& 0x1ff) 9) % 65536)) ∧
    (step s).reg R_PC = (s.reg R_PC + 1) % 65536 ∧
    (step s).memory = s.memory ∧
    (∀ q, q ≠ 0xFE00 →
      q ≠ (s.reg R_PC + 1 + sign_extend ((fetch s).1 &&& 0x1ff) 9) % 65536 →
      (s.reg R_PC + 1 + sign_extend ((fetch s).1 &&& 0x1ff) 9) % 65536 ≠ s.reg R_PC →
      (step (mem_write s
          ((s.reg R_PC + 1 + sign_extend ((fetch s).1 &&& 0x1ff) 9) % 65536) q)).reg
        (((fetch s).1 >>> 9) &&& 7) = s.memory q) ∧
    ((run 2 (bootProgram [0xA003, 0xF025, 0, 0, 0x3006, 0, 0x002A])).reg 0 = 0x002A ∧
      (run 2 (bootProgram [0xA003, 0xF025, 0, 0, 0x3006, 0, 0x002A])).reg R_COND = 1 ∧
      (run 2 (bootProgram [0xA003, 0xF025, 0, 0, 0x3006, 0, 0x002A])).status
        = Status.halted) := by
  have hi : s.memory (s.reg R_PC) = (fetch s).1 := by rw [fetch_plain s hpre]
  have core := step_LDI_plain s (fetch s).1 hi h hpre ha hp
  refine ⟨core.1, core.2.1, core.2.2, ?_, by decide, by decide, by decide⟩
  intro q hq hqa hapre
  generalize (fetch s).1 = i at *
  generalize hA : (s.reg R_PC + 1 + sign_extend (i &&& 0x1ff) 9) % 65536 = A at *
  have hreg : (mem_write s A q).reg = s.reg := rfl
  have hm : (mem_write s A q).memory = upd s.memory A q := rfl
  have core2 := step_LDI_plain (mem_write s A q) i
    (by rw [hreg, hm, upd_ne _ _ _ _ (Ne.symm hapre)]; exact hi) h
    (by rw [hreg]; exact hpre)
    (by rw [hreg, hA]; exact ha)
    (by rw [hreg, hA, hm, upd_same]; exact hq)
  have c1 := core2.1
  rw [hreg, hA, hm, upd_same, upd_ne _ _ _ _ hqa] at c1
  exact c1

/-! ## C6: ST, STR, STI -/

/-- C6. For every state whose fetched word is an ST, STR or STI, provided the
fetch address, and for STI the address of the pointer cell, is not `0xFE00`:
afterwards memory is the old memory with the value of `SR` (bits 11..9) stored
at the effective address (ST: `(pre + 1 + signext(off9)) mod 2^16`; STR:
`(BaseR + signext(off6)) mod 2^16`; STI: `mem[(pre + 1 + signext(off9)) mod
2^16]`), so every other cell is unchanged; `R0..R7` and `COND` are unchanged and
`PC = (pre + 1) mod 2^16`. -/
theorem store_writes_one_cell (s : VM)
    (hop : (fetch s).1 >>> 12 = OP_ST ∨ (fetch s).1 >>> 12 = OP_STR ∨
      (fetch s).1 >>> 12 = OP_STI)
    (hpre : s.reg R_PC ≠ 0xFE00)
    (hptr : (fetch s).1 >>> 12 = OP_STI →
      (s.reg R_PC + 1 + sign_extend ((fetch s).1 &&& 0x1ff) 9) % 65536 ≠ 0xFE00) :
    (step s).memory =
      upd s.memory
        (if (fetch s).1 >>> 12 = OP_ST then
          (s.reg R_PC + 1 + sign_extend ((fetch s).1 &&& 0x1ff) 9) % 65536
        else if (fetch s).1 >>> 12 = OP_STR then
          (s.reg (((fetch s).1 >>> 6) &&& 7) + sign_extend ((fetch s).1 &&& 0x3f) 6) % 65536
        else
          s.memory ((s.reg R_PC + 1 + sign_extend ((fetch s).1 &&& 0x1ff) 9) % 65536))
        (s.reg (((fetch s).1 >>> 9) &&& 7)) ∧
    (∀ j, j ≤ 7 → (step s).reg j = s.reg j) ∧
    (step s).reg R_COND = s.reg R_COND ∧
    (step s).reg R_PC = (s.reg R_PC + 1) % 65536 := by
  have hf := fetch_plain s hpre
  have hmod : ∀ x : Nat, ((s.reg R_PC + 1) % 65536 + x) % 65536 =
      (s.reg R_PC + 1 + x) % 65536 := fun x => by omega
  have hpc : (fetch s).2.reg R_PC = (s.reg R_PC + 1) % 65536 := fetch_reg_pc s
  have hmem : (fetch s).2.memory = s.memory := by rw [hf]
  have hsr := fetch_reg_low s _ (field_le ((fetch s).1 >>> 9) 7)
  have hbase := fetch_reg_low s _ (field_le ((fetch s).1 >>> 6) 7)
  have hc := fetch_reg_cond s
  rcases hop with h | h | h
  · have hstep : step s = op_ST (fetch s).1 (fetch s).2 := by
      unfold step
      rw [exec_ST _ _ h]
    rw [hstep, if_pos h]
    unfold op_ST mem_write
    dsimp only
    rw [hpc, hmod, hmem, hsr]
    exact ⟨rfl, fun j hj => fetch_reg_low s j hj, hc, rfl⟩
  · have hstep : step s = op_STR (fetch s).1 (fetch s).2 := by
      unfold step
      rw [exec_STR _ _ h]
    have h3 : ¬ ((fetch s).1 >>> 12 = OP_ST) := by rw [h]; decide
    rw [hstep, if_neg h3, if_pos h]
    unfold op_STR mem_write
    dsimp only
    rw [hpc, hmem, hsr, hbase]
    exact ⟨rfl, fun j hj => fetch_reg_low s j hj, hc, rfl⟩
  · have hstep : step s = op_STI (fetch s).1 (fetch s).2 := by
      unfold step
      rw [exec_STI _ _ h]
    have h3 : ¬ ((fetch s).1 >>> 12 = OP_ST) := by rw [h]; decide
    have h7 : ¬ ((fetch s).1 >>> 12 = OP_STR) := by rw [h]; decide
    rw [hstep, if_neg h3, if_neg h7]
    unfold op_STI mem_write
    dsimp only
    rw [hpc, hmod, mem_read_plain _ _ (hptr h)]
    dsimp only
    rw [hpc, hmem, hsr]
    exact ⟨rfl, fun j hj => fetch_reg_low s j hj, hc, rfl⟩

/-! ## Concrete instances -/

theorem boot_wf (memory : Nat → Nat) (stdin : List Nat) (ready : List Bool) (cs : Bool)
    (h : ∀ a, memory a < 65536) : WF (boot memory stdin ready cs) := by
  refine ⟨h, ?_⟩
  intro r
  show upd (upd (fun _ => 0) R_COND FL_ZRO) R_PC PC_START r < 65536
  unfold upd
  split_ifs <;> first | decide | (show (0 : Nat) < 65536; decide)

theorem oneWord_wf (w : Nat) (h : w < 65536) : WF (oneWord w) :=
  boot_wf _ _ _ _ (upd_lt _ _ _ (fun _ => by norm_num) h)

/-- C1 at the word `0x1025` (ADD R0, R0, #5) on the booted machine: `COND`
becomes POS and `R0 = 5`. -/
theorem cond_matches_destination_witness :
    WF (oneWord 0x1025) ∧ (fetch (oneWord 0x1025)).1 >>> 12 = OP_ADD ∧
    (((step (oneWord 0x1025)).reg R_COND = 1 ∨ (step (oneWord 0x1025)).reg R_COND = 2 ∨
        (step (oneWord 0x1025)).reg R_COND = 4) ∧
      ((step (oneWord 0x1025)).reg R_COND = 2 ↔ (step (oneWord 0x1025)).reg 0 = 0) ∧
      ((step (oneWord 0x1025)).reg R_COND = 4 ↔
        ((step (oneWord 0x1025)).reg 0).testBit 15 = true) ∧
      ((step (oneWord 0x1025)).reg R_COND = 1 ↔
        ((step (oneWord 0x1025)).reg 0 ≠ 0 ∧
          ((step (oneWord 0x1025)).reg 0).testBit 15 = false))) :=
  ⟨oneWord_wf _ (by norm_num), by decide,
    cond_matches_destination (oneWord 0x1025) (oneWord_wf _ (by norm_num))
      (Or.inl (by decide))⟩

/-- C2 at the word `0x1025` (ADD R0, R0, #5) on the booted machine. -/
theorem add_wraps_mod_2_16_witness :
    (fetch (oneWord 0x1025)).1 >>> 12 = OP_ADD ∧
    (step (oneWord 0x1025)).reg 0 = 5 ∧
    (step (oneWord 0x1025)).status = Status.running :=
  ⟨by decide, (add_wraps_mod_2_16 (oneWord 0x1025) (by decide)).1,
    (add_wraps_mod_2_16 (oneWord 0x1025) (by decide)).2.1⟩

/-- C3 at the word `0x0E02` (BR nzp, +2) on the booted machine, where
`COND = ZRO`: the branch is taken to `0x3003`. -/
theorem br_pc_and_frame_witness :
    (fetch (oneWord 0x0E02)).1 >>> 12 = OP_BR ∧
    (step (oneWord 0x0E02)).reg R_PC = 0x3003 ∧
    (step (oneWord 0x0E02)).reg R_COND = 2 :=
  ⟨by decide, (br_pc_and_frame (oneWord 0x0E02) (by decide)).1 (by decide),
    (br_pc_and_frame (oneWord 0x0E02) (by decide)).2.2.1⟩

/-- C4 at the word `0x4802` (JSR +2) on the booted machine: `R7 = 0x3001` and
`PC = 0x3003`. -/
theorem jsr_link_and_target_witness :
    (fetch (oneWord 0x4802)).1 >>> 12 = OP_JSR ∧
    ((fetch (oneWord 0x4802)).1 >>> 11) &&& 1 = 1 ∧
    (step (oneWord 0x4802)).reg R_R7 = 0x3001 ∧
    (step (oneWord 0x4802)).reg R_PC = 0x3003 :=
  ⟨by decide, by decide, (jsr_link_and_target (oneWord 0x4802) (by decide)).1 (by decide)⟩

/-- C5 on the program of the LDI scenario: the first step loads `0x002A`. -/
theorem ldi_loads_through_pointer_witness :
    (fetch (bootProgram [0xA003, 0xF025, 0, 0, 0x3006, 0, 0x002A])).1 >>> 12 = OP_LDI ∧
    (step (bootProgram [0xA003, 0xF025, 0, 0, 0x3006, 0, 0x002A])).reg 0 = 0x002A ∧
    (step (bootProgram [0xA003, 0xF025, 0, 0, 0x3006, 0, 0x002A])).reg R_PC = 0x3001 :=
  ⟨by decide,
    (ldi_loads_through_pointer (bootProgram [0xA003, 0xF025, 0, 0, 0x3006, 0, 0x002A])
      (by decide) (by decide) (by decide) (by decide)).1,
    (ldi_loads_through_pointer (bootProgram [0xA003, 0xF025, 0, 0, 0x3006, 0, 0x002A])
      (by decide) (by decide) (by decide) (by decide)).2.1⟩

/-- C6 at the word `0x3E02` (ST R7, +2) on the booted machine: the only cell
written is `0x3003`. -/
theorem store_writes_one_cell_witness :
    (fetch (oneWord 0x3E02)).1 >>> 12 = OP_ST ∧ (oneWord 0x3E02).reg R_PC ≠ 0xFE00 ∧
    (step (oneWord 0x3E02)).memory = upd (oneWord 0x3E02).memory 0x3003 0 ∧
    (step (oneWord 0x3E02)).reg R_PC = 0x3001 :=
  ⟨by decide, by decide,
    (store_writes_one_cell (oneWord 0x3E02) (Or.inl (by decide)) (by decide)
      (by decide)).1,
    (store_writes_one_cell (oneWord 0x3E02) (Or.inl (by decide)) (by decide)
      (by decide)).2.2.2⟩

/-! ## C7: the loader as the inverse of the big-endian encoding -/

theorem swap16_word_of_bytes (b0 b1 : Nat) :
    swap16 (word_of_bytes b0 b1) = b0 % 256 * 256 + b1 % 256 := by
  unfold swap16 word_of_bytes
  have h1 : (b0 % 256 + 256 * (b1 % 256)) >>> 8 = b1 % 256 := by
    rw [Nat.shiftRight_eq_div_pow]
    norm_num
    omega
  have h2 : (b0 % 256 + 256 * (b1 % 256)) <<< 8 = 2 ^ 8 * (b0 % 256 + 256 * (b1 % 256)) := by
    rw [Nat.shiftLeft_eq, Nat.mul_comm]
  rw [h1, h2, ← Nat.mul_add_lt_is_or (by norm_num; omega)]
  norm_num
  omega

theorem swap16_be_bytes (w : Nat) (h : w < 65536) :
    swap16 (word_of_bytes (w / 256 % 256) (w % 256)) = w := by
  rw [swap16_word_of_bytes]
  omega

theorem fread_zero (pe : Nat → Nat → Nat) (memory : Nat → Nat) (p : Nat) (file : List Nat) :
    fread pe memory p 0 file = (memory, 0) := by
  unfold fread
  rfl

/-- What `swap_loop` leaves in each cell. -/
theorem swap_loop_get (n : Nat) : ∀ (memory : Nat → Nat) (p a : Nat),
    swap_loop memory p n a =
      if p ≤ a ∧ a < p + n then swap16 (memory a) else memory a := by
  induction n with
  | zero =>
    intro memory p a
    have h0 : ¬ (p ≤ a ∧ a < p + 0) := by omega
    rw [if_neg h0, swap_loop]
  | succ n ih =>
    intro memory p a
    rw [swap_loop, ih]
    by_cases hap : a = p
    · subst hap
      have h1 : ¬ (a + 1 ≤ a ∧ a < a + 1 + n) := by omega
      have h2 : a ≤ a ∧ a < a + (n + 1) := by omega
      rw [if_neg h1, if_pos h2, upd_same]
    · rw [upd_ne _ _ _ _ hap]
      by_cases h1 : p + 1 ≤ a ∧ a < p + 1 + n
      · have h2 : p ≤ a ∧ a < p + (n + 1) := by omega
        rw [if_pos h1, if_pos h2]
      · have h2 : ¬ (p ≤ a ∧ a < p + (n + 1)) := by omega
        rw [if_neg h1, if_neg h2]

/-- What `fread` does with the encoding of `words` when at least that many
elements are asked for: all of them are read, each into its own cell. -/
theorem fread_encoded (pe : Nat → Nat → Nat) (words : List Nat) :
    ∀ (memory : Nat → Nat) (p n : Nat), words.length ≤ n →
      (fread pe memory p n (words.flatMap be_bytes)).2 = words.length ∧
      ∀ a, (fread pe memory p n (words.flatMap be_bytes)).1 a =
        if p ≤ a ∧ a < p + words.length then
          word_of_bytes (words.getD (a - p) 0 / 256 % 256) (words.getD (a - p) 0 % 256)
        else memory a := by
  induction words with
  | nil =>
    intro memory p n _
    have h0 : fread pe memory p n [] = (memory, 0) := by
      cases n <;> simp [fread]
    refine ⟨by simp [h0], ?_⟩
    intro a
    have h1 : ¬ (p ≤ a ∧ a < p + ([] : List Nat).length) := by simp
    rw [if_neg h1]
    simp [h0]
  | cons w ws ih =>
    intro memory p n hn
    obtain ⟨m, rfl⟩ : ∃ m, n = m + 1 := ⟨n - 1, by simp at hn; omega⟩
    have hm : ws.length ≤ m := by simp at hn; omega
    have hflat : (w :: ws).flatMap be_bytes =
        (w / 256 % 256) :: (w % 256) :: ws.flatMap be_bytes := by
      simp [List.flatMap_cons, be_bytes]
    rw [hflat, fread]
    obtain ⟨ih1, ih2⟩ :=
      ih (upd memory p (word_of_bytes (w / 256 % 256) (w % 256))) (p + 1) m hm
    refine ⟨by simp [ih1], ?_⟩
    intro a
    dsimp only
    rw [ih2]
    by_cases hap : a = p
    · subst hap
      have h1 : ¬ (a + 1 ≤ a ∧ a < a + 1 + ws.length) := by omega
      have h2 : a ≤ a ∧ a < a + (w :: ws).length := by simp
      rw [if_neg h1, if_pos h2, upd_same]
      simp
    · rw [upd_ne _ _ _ _ hap]
      by_cases h1 : p + 1 ≤ a ∧ a < p + 1 + ws.length
      · have h2 : p ≤ a ∧ a < p + (w :: ws).length := by simp; omega
        rw [if_pos h1, if_pos h2]
        have h3 : a - p = (a - (p + 1)) + 1 := by omega
        rw [h3, List.getD_cons_succ]
      · have h2 : ¬ (p ≤ a ∧ a < p + (w :: ws).length) := by simp; omega
        rw [if_neg h1, if_neg h2]

/-- The round trip of the loader for every origin but 0: the image of `words`
at `O` loads `words` into `memory[O..]`. -/
theorem read_image_file_round_trip (pe : Nat → Nat → Nat) (junk O : Nat)
    (words : List Nat) (memory : Nat → Nat) (hO : 1 ≤ O)
    (hlen : O + words.length ≤ 65536) (hw : ∀ w ∈ words, w < 65536)
    (k : Nat) (hk : k < words.length) :
    read_image_file pe junk (image O words) memory (O + k) = words.getD k 0 := by
  have hOlt : O < 65536 := by omega
  have himg : image O words = (O / 256 % 256) :: (O % 256) :: words.flatMap be_bytes := by
    simp [image, be_bytes]
  unfold read_image_file
  rw [himg]
  dsimp only [List.drop]
  rw [swap16_be_bytes O hOlt]
  have hmax : (MEMORY_MAX - O) % 65536 = 65536 - O := by
    rw [MEMORY_MAX_eq]
    omega
  rw [hmax]
  obtain ⟨h1, h2⟩ := fread_encoded pe words memory O (65536 - O) (by omega)
  rw [h1, swap_loop_get, if_pos (by omega), h2, if_pos (by omega)]
  have hk2 : O + k - O = k := by omega
  rw [hk2]
  apply swap16_be_bytes
  apply hw
  rw [List.getD_eq_getElem _ _ hk]
  exact List.getElem_mem hk

/-- C7. The round trip fails at origin 0: there `max_read`, the 16-bit
truncation of `MEMORY_MAX - origin`, is 0, so the image of any word sequence at
origin 0 leaves memory as it was; the one-word image `00 00 12 34` loaded into
zeroed memory leaves `memory[0] = 0`, not `0x1234`. -/
theorem read_image_file_origin_zero (pe : Nat → Nat → Nat) (junk : Nat)
    (words : List Nat) (memory : Nat → Nat) :
    read_image_file pe junk (image 0 words) memory = memory ∧
    image 0 [0x1234] = [0x00, 0x00, 0x12, 0x34] ∧
    read_image_file pe junk (image 0 [0x1234]) (fun _ => 0) 0 = 0 := by
  have key : ∀ (ws : List Nat) (m : Nat → Nat),
      read_image_file pe junk (image 0 ws) m = m := by
    intro ws m
    have himg : image 0 ws = 0 :: 0 :: ws.flatMap be_bytes := by
      simp [image, be_bytes]
    unfold read_image_file
    rw [himg]
    dsimp only [List.drop]
    have h0 : swap16 (word_of_bytes 0 0) = 0 := by decide
    rw [h0]
    have hmax : (MEMORY_MAX - 0) % 65536 = 0 := by decide
    rw [hmax, fread_zero]
    rfl
  refine ⟨key words memory, by decide, ?_⟩
  rw [key]

/-! ## C8: when loading an image fails -/

/-- C8, as stated, fails: an opened source that holds a single byte, so that
the origin cannot be read, is reported as a success by `read_image`, and the
loading loop of `main` goes on. -/
theorem read_image_short_source_succeeds :
    origin_readable (some [0x30]) = false ∧
    (read_image (fun old _ => old) 0 (some [0x30]) (fun _ => 0)).1 = 1 ∧
    (load_images (fun old _ => old) 0 [some [0x30]] (fun _ => 0)).isSome = true := by
  refine ⟨rfl, rfl, rfl⟩

/-- C8, amended. `read_image` reports a failure iff the source cannot be
opened, and then `main` exits; every opened source is reported as a success,
whether or not the origin could be read.  A source of exactly two bytes writes
no memory word, and a source of fewer than two bytes leaves memory as it was. -/
theorem read_image_fails_iff_not_opened (pe : Nat → Nat → Nat) (junk : Nat)
    (file : Option (List Nat)) (memory : Nat → Nat) :
    ((read_image pe junk file memory).1 = 0 ↔ file = none) ∧
    ((read_image pe junk file memory).1 = 0 ∨ (read_image pe junk file memory).1 = 1) ∧
    (load_images pe junk [file] memory = none ↔ file = none) ∧
    (∀ b0 b1, read_image pe junk (some [b0, b1]) memory = (1, memory)) ∧
    (∀ b, read_image pe junk (some [b]) memory = (1, memory)) ∧
    read_image pe junk (some []) memory = (1, memory) ∧
    read_image pe junk none memory = (0, memory) := by
  have hempty : ∀ (o : Nat), swap_loop (fread pe memory o ((MEMORY_MAX - o) % 65536) []).1 o
      (fread pe memory o ((MEMORY_MAX - o) % 65536) []).2 = memory := by
    intro o
    have h0 : fread pe memory o ((MEMORY_MAX - o) % 65536) [] = (memory, 0) := by
      cases (MEMORY_MAX - o) % 65536 <;> simp [fread]
    rw [h0]
    rfl
  refine ⟨?_, ?_, ?_, ?_, ?_, ?_, rfl⟩
  · cases file <;> simp [read_image]
  · cases file <;> simp [read_image]
  · cases file <;> simp [load_images, read_image]
  · intro b0 b1
    simp only [read_image, read_image_file, List.drop]
    rw [hempty]
  · intro b
    simp only [read_image, read_image_file, List.drop]
    rw [hempty]
  · simp only [read_image, read_image_file, List.drop]
    rw [hempty]

/-! ## C9: reading the keyboard status register -/

/-- C9, as stated, fails: the host reports a key available, standard input is
at its end, and `getchar` returns `EOF`; the read stores `0xFFFF` in
`memory[0xFE02]`, whose bits 15..8 are not zero, and consumes nothing. -/
theorem kbsr_eof_stores_ffff :
    (check_key (oneWordHost 0 [] [true] true)).1 = true ∧
    (mem_read (oneWordHost 0 [] [true] true) 0xFE00).1 = 0x8000 ∧
    (mem_read (oneWordHost 0 [] [true] true) 0xFE00).2.memory 0xFE02 = 0xFFFF ∧
    ¬ ((mem_read (oneWordHost 0 [] [true] true) 0xFE00).2.memory 0xFE02 >>> 8 = 0) ∧
    (oneWordHost 0 [] [true] true).stdin = [] ∧
    (mem_read (oneWordHost 0 [] [true] true) 0xFE00).2.stdin = [] := by
  refine ⟨by decide, by decide, by decide, by decide, by decide, by decide⟩

/-- C9, amended. A read of `0xFE00` probes the host once.  With a key reported
and a character `c` pending, it consumes `c`, sets `memory[0xFE00] = 0x8000`
and `memory[0xFE02]` to the low byte of `c` (bits 15..8 zero) and returns
`0x8000`; with a key reported at the end of input it consumes nothing, sets
`memory[0xFE00] = 0x8000` and `memory[0xFE02] = 0xFFFF` and returns `0x8000`;
with no key reported it sets `memory[0xFE00] = 0`, leaves `memory[0xFE02]` and
the input alone and returns 0.  No other cell changes in any case. -/
theorem keyboard_status_read (s : VM) :
    (∀ c cs, (check_key s).1 = true → s.stdin = c :: cs →
      (mem_read s 0xFE00).1 = 0x8000 ∧
      (mem_read s 0xFE00).2.memory 0xFE00 = 0x8000 ∧
      (mem_read s 0xFE00).2.memory 0xFE02 = c % 256 ∧
      (mem_read s 0xFE00).2.stdin = cs ∧
      (∀ a, a ≠ 0xFE00 → a ≠ 0xFE02 → (mem_read s 0xFE00).2.memory a = s.memory a)) ∧
    ((check_key s).1 = true → s.stdin = [] →
      (mem_read s 0xFE00).1 = 0x8000 ∧
      (mem_read s 0xFE00).2.memory 0xFE00 = 0x8000 ∧
      (mem_read s 0xFE00).2.memory 0xFE02 = 0xFFFF ∧
      (mem_read s 0xFE00).2.stdin = [] ∧
      (∀ a, a ≠ 0xFE00 → a ≠ 0xFE02 → (mem_read s 0xFE00).2.memory a = s.memory a)) ∧
    ((check_key s).1 = false →
      (mem_read s 0xFE00).1 = 0 ∧
      (mem_read s 0xFE00).2.memory 0xFE00 = 0 ∧
      (mem_read s 0xFE00).2.memory 0xFE02 = s.memory 0xFE02 ∧
      (mem_read s 0xFE00).2.stdin = s.stdin ∧
      (∀ a, a ≠ 0xFE00 → (mem_read s 0xFE00).2.memory a = s.memory a)) := by
  have hkey : (check_key s).1 = true → ∃ rs, s.ready = true :: rs := by
    intro hk
    unfold check_key at hk
    split at hk
    · cases hk
    · next b rest hb =>
      simp only at hk
      exact ⟨rest, by rw [hb, hk]⟩
  refine ⟨?_, ?_, ?_⟩
  · intro c cs hk hs
    obtain ⟨rs, hr⟩ := hkey hk
    rcases mem_read_kbsr_cases s with ⟨c', cs', rs', h1, h2, h⟩ | ⟨_, h1, _, _⟩ |
        ⟨_, h2, _⟩ | ⟨h2, _⟩
    · rw [hs] at h1
      injection h1 with hc hcs
      subst hc hcs
      rw [show (0xFE00 : Nat) = MR_KBSR from rfl, h]
      refine ⟨rfl, ?_, ?_, rfl, ?_⟩
      · simp [upd]
      · simp [upd]
      · intro a ha hb
        show upd (upd s.memory MR_KBSR 32768) MR_KBDR (c % 256) a = s.memory a
        rw [upd_ne _ _ _ _ hb, upd_ne _ _ _ _ ha]
    · rw [hs] at h1; cases h1
    · rw [hr] at h2; cases h2
    · rw [hr] at h2; cases h2
  · intro hk hs
    obtain ⟨rs, hr⟩ := hkey hk
    rcases mem_read_kbsr_cases s with ⟨_, _, _, h1, _, _⟩ | ⟨rs', h1, h2, h⟩ |
        ⟨_, h2, _⟩ | ⟨h2, _⟩
    · rw [hs] at h1; cases h1
    · rw [show (0xFE00 : Nat) = MR_KBSR from rfl, h]
      refine ⟨rfl, ?_, ?_, hs, ?_⟩
      · simp [upd]
      · simp [upd]
      · intro a ha hb
        show upd (upd s.memory MR_KBSR 32768) MR_KBDR 65535 a = s.memory a
        rw [upd_ne _ _ _ _ hb, upd_ne _ _ _ _ ha]
    · rw [hr] at h2; cases h2
    · rw [hr] at h2; cases h2
  · intro hk
    have hck : ∀ rs, s.ready ≠ true :: rs := by
      intro rs hr
      simp [check_key, hr] at hk
    rcases mem_read_kbsr_cases s with ⟨_, _, _, _, h2, _⟩ | ⟨_, _, h2, _⟩ |
        ⟨rs, h2, h⟩ | ⟨h2, h⟩
    · exact absurd h2 (hck _)
    · exact absurd h2 (hck _)
    · rw [show (0xFE00 : Nat) = MR_KBSR from rfl, h]
      refine ⟨rfl, by simp [upd], by simp [upd], rfl, ?_⟩
      intro a ha
      exact upd_ne _ _ _ _ ha
    · rw [show (0xFE00 : Nat) = MR_KBSR from rfl, h]
      refine ⟨rfl, by simp [upd], by simp [upd], rfl, ?_⟩
      intro a ha
      exact upd_ne _ _ _ _ ha

/-- C9 on the booted machine with the key `A` (65) pending and reported. -/
theorem keyboard_status_read_witness :
    (check_key (oneWordHost 0 [65] [true] true)).1 = true ∧
    (mem_read (oneWordHost 0 [65] [true] true) 0xFE00).1 = 0x8000 ∧
    (mem_read (oneWordHost 0 [65] [true] true) 0xFE00).2.memory 0xFE02 = 65 ∧
    (mem_read (oneWordHost 0 [65] [true] true) 0xFE00).2.stdin = [] :=
  ⟨rfl, ((keyboard_status_read (oneWordHost 0 [65] [true] true)).1 65 [] rfl rfl).1,
    ((keyboard_status_read (oneWordHost 0 [65] [true] true)).1 65 [] rfl rfl).2.2.1,
    ((keyboard_status_read (oneWordHost 0 [65] [true] true)).1 65 [] rfl rfl).2.2.2.1⟩

/-! ## C10: the input traps -/

theorem getchar_cons (s : VM) (c : Nat) (cs : List Nat) (h : s.stdin = c :: cs) :
    getchar s = (((c % 256 : Nat) : Int), { s with stdin := cs }) := by
  unfold getchar
  rw [h]

theorem getchar_nil (s : VM) (h : s.stdin = []) : getchar s = (-1, s) := by
  unfold getchar
  rw [h]

theorem update_flags_stdin (s : VM) (r : Nat) : (update_flags s r).stdin = s.stdin := by
  unfold update_flags
  split_ifs <;> rfl

theorem fetch_charSigned (s : VM) : (fetch s).2.charSigned = s.charSigned := by
  unfold fetch
  rw [mem_read_charSigned]

/-- The trap `GETC` on the state it is entered in. -/
theorem trap_GETC_spec (s : VM) :
    (∀ c cs, s.stdin = c :: cs →
      (trap_GETC s).reg R_R0 = c % 256 ∧
      (trap_GETC s).reg R_COND = (if c % 256 = 0 then 2 else 1) ∧
      (trap_GETC s).stdin = cs) ∧
    (s.stdin = [] →
      (trap_GETC s).reg R_R0 = 0xFFFF ∧ (trap_GETC s).reg R_COND = 4 ∧
      (trap_GETC s).stdin = []) := by
  constructor
  · intro c cs h
    unfold trap_GETC
    rw [update_flags_cond, update_flags_reg _ _ _ (by decide), update_flags_stdin,
      getchar_cons s c cs h]
    dsimp only
    rw [upd_same]
    have hu : u16 ((c % 256 : Nat) : Int) = c % 256 := by
      unfold u16
      omega
    rw [hu]
    refine ⟨rfl, ?_, rfl⟩
    by_cases h0 : c % 256 = 0
    · rw [if_pos h0, if_pos h0]; rfl
    · rw [if_neg h0, if_neg h0, if_neg (by omega)]; rfl
  · intro h
    unfold trap_GETC
    rw [update_flags_cond, update_flags_reg _ _ _ (by decide), update_flags_stdin,
      getchar_nil s h]
    dsimp only
    rw [upd_same]
    exact ⟨by decide, by decide, h⟩

/-- The trap `IN` on the state it is entered in. -/
theorem trap_IN_spec (s : VM) :
    (∀ c cs, s.stdin = c :: cs →
      (trap_IN s).reg R_R0 =
        (if s.charSigned = true ∧ 128 ≤ c % 256 then 0xFF00 + c % 256 else c % 256) ∧
      (trap_IN s).reg R_COND =
        (if c % 256 = 0 then 2
         else if s.charSigned = true ∧ 128 ≤ c % 256 then 4 else 1) ∧
      (trap_IN s).stdin = cs) ∧
    (s.stdin = [] →
      (trap_IN s).reg R_R0 = (if s.charSigned = true then 0xFFFF else 0x00FF) ∧
      (trap_IN s).reg R_COND = (if s.charSigned = true then 4 else 1) ∧
      (trap_IN s).stdin = []) := by
  constructor
  · intro c cs h
    have hg : getchar (putBytes s promptBytes) =
        (((c % 256 : Nat) : Int), { putBytes s promptBytes with stdin := cs }) :=
      getchar_cons _ c cs h
    unfold trap_IN
    rw [update_flags_cond, update_flags_reg _ _ _ (by decide), update_flags_stdin, hg]
    dsimp only [putc]
    rw [upd_same]
    have hu : u16 (toChar s.charSigned ((c % 256 : Nat) : Int)) =
        (if s.charSigned = true ∧ 128 ≤ c % 256 then 0xFF00 + c % 256 else c % 256) := by
      unfold u16 toChar
      cases s.charSigned
      · simp
        omega
      · by_cases h1 : 128 ≤ c % 256
        · have : (128 : Int) ≤ ((c % 256 : Nat) : Int) % 256 := by omega
          simp [h1, this]
          omega
        · have : ¬ (128 : Int) ≤ ((c % 256 : Nat) : Int) % 256 := by omega
          simp [h1, this]
          omega
    rw [hu]
    refine ⟨rfl, ?_, rfl⟩
    by_cases h0 : c % 256 = 0
    · have hn : ¬ (s.charSigned = true ∧ 128 ≤ c % 256) := by omega
      rw [if_neg hn, if_pos h0, if_pos h0]; rfl
    · by_cases h1 : s.charSigned = true ∧ 128 ≤ c % 256
      · rw [if_pos h1, if_neg h0, if_neg (by omega), if_pos (by omega), if_pos h1]; rfl
      · rw [if_neg h1, if_neg h0, if_neg h0, if_neg (by omega), if_neg h1]; rfl
  · intro h
    have hg : getchar (putBytes s promptBytes) = (-1, putBytes s promptBytes) :=
      getchar_nil _ h
    unfold trap_IN
    rw [update_flags_cond, update_flags_reg _ _ _ (by decide), update_flags_stdin, hg]
    dsimp only [putc]
    rw [upd_same]
    cases hcs : s.charSigned
    · exact ⟨by decide, by decide, h⟩
    · exact ⟨by decide, by decide, h⟩

theorem step_TRAP_GETC (s : VM) (hop : (fetch s).1 >>> 12 = OP_TRAP)
    (hv : (fetch s).1 &&& 0xff = TRAP_GETC) :
    step s = trap_GETC
      { (fetch s).2 with reg := upd (fetch s).2.reg R_R7 ((fetch s).2.reg R_PC) } := by
  unfold step
  dsimp only
  rw [exec_TRAP _ _ hop]
  unfold op_TRAP
  dsimp only
  rw [if_pos hv]

theorem step_TRAP_IN (s : VM) (hop : (fetch s).1 >>> 12 = OP_TRAP)
    (hv : (fetch s).1 &&& 0xff = TRAP_IN) :
    step s = trap_IN
      { (fetch s).2 with reg := upd (fetch s).2.reg R_R7 ((fetch s).2.reg R_PC) } := by
  unfold step
  dsimp only
  rw [exec_TRAP _ _ hop]
  unfold op_TRAP
  dsimp only
  rw [hv]
  rfl

/-- C10. The code at the inputs where it leaves the claim: where plain `char`
is signed, TRAP IN (`0xF023`) on the character `0x80` stores `R0 = 0xFF80`,
above `0x00FF`, and sets `COND = NEG`, because `(uint16_t) c` sign-extends the
`char`; and at the end of input, where `getchar` returns `EOF`, TRAP GETC
(`0xF020`) stores `R0 = 0xFFFF` with `COND = NEG`.  TRAP GETC on the same
character `0x80` stores `R0 = 0x0080` with `COND = POS`, as the claim says. -/
theorem input_trap_sets_high_bits :
    ((step (oneWordHost 0xF023 [0x80] [] true)).reg R_R0 = 0xFF80 ∧
      ¬ ((step (oneWordHost 0xF023 [0x80] [] true)).reg R_R0 ≤ 0x00FF) ∧
      (step (oneWordHost 0xF023 [0x80] [] true)).reg R_COND = FL_NEG) ∧
    ((step (oneWordHost 0xF020 [0x80] [] true)).reg R_R0 = 0x0080 ∧
      (step (oneWordHost 0xF020 [0x80] [] true)).reg R_COND = FL_POS) ∧
    ((step (oneWordHost 0xF020 [] [] true)).reg R_R0 = 0xFFFF ∧
      ¬ ((step (oneWordHost 0xF020 [] [] true)).reg R_R0 ≤ 0x00FF) ∧
      (step (oneWordHost 0xF020 [] [] true)).reg R_COND = FL_NEG) := by
  refine ⟨⟨by decide, by decide, by decide⟩, ⟨by decide, by decide⟩,
    by decide, by decide, by decide⟩

/-- What the two input traps leave in `R0` and `COND`, for every state whose
fetched word is TRAP GETC (`0x20`) or TRAP IN (`0x23`).  When `getchar` returns
a byte `c`: after GETC, and after IN when `c < 128` or plain `char` is unsigned,
`R0 = c` (upper 8 bits zero) and `COND` is ZRO if `c = 0` and POS otherwise;
after IN with `c ≥ 128` and a signed plain `char`, `R0 = 0xFF00 + c` and
`COND = NEG`.  When `getchar` returns `EOF`: `R0 = 0xFFFF` and `COND = NEG`, but
for IN with an unsigned plain `char`, where `R0 = 0x00FF` and `COND = POS`. -/
theorem input_trap_result (s : VM) (hop : (fetch s).1 >>> 12 = OP_TRAP)
    (hv : (fetch s).1 &&& 0xff = TRAP_GETC ∨ (fetch s).1 &&& 0xff = TRAP_IN) :
    (∀ c cs, (fetch s).2.stdin = c :: cs →
      (step s).reg R_R0 =
        (if (fetch s).1 &&& 0xff = TRAP_IN ∧ s.charSigned = true ∧ 128 ≤ c % 256
          then 0xFF00 + c % 256 else c % 256) ∧
      (step s).reg R_COND =
        (if c % 256 = 0 then 2
         else if (fetch s).1 &&& 0xff = TRAP_IN ∧ s.charSigned = true ∧ 128 ≤ c % 256
          then 4 else 1) ∧
      (step s).stdin = cs) ∧
    ((fetch s).2.stdin = [] →
      (step s).reg R_R0 =
        (if (fetch s).1 &&& 0xff = TRAP_IN ∧ s.charSigned = false then 0x00FF else 0xFFFF) ∧
      (step s).reg R_COND =
        (if (fetch s).1 &&& 0xff = TRAP_IN ∧ s.charSigned = false then 1 else 4)) := by
  have hcs := fetch_charSigned s
  rcases hv with hv | hv
  · have hne : ¬ ((fetch s).1 &&& 0xff = TRAP_IN) := by rw [hv]; decide
    rw [step_TRAP_GETC s hop hv]
    obtain ⟨h1, h2⟩ := trap_GETC_spec
      { (fetch s).2 with reg := upd (fetch s).2.reg R_R7 ((fetch s).2.reg R_PC) }
    constructor
    · intro c cs h
      obtain ⟨a, b, d⟩ := h1 c cs h
      have hn : ¬ ((fetch s).1 &&& 0xff = TRAP_IN ∧ s.charSigned = true ∧ 128 ≤ c % 256) :=
        fun hx => hne hx.1
      rw [if_neg hn, if_neg hn]
      exact ⟨a, b, d⟩
    · intro h
      obtain ⟨a, b, _⟩ := h2 h
      have hn : ¬ ((fetch s).1 &&& 0xff = TRAP_IN ∧ s.charSigned = false) :=
        fun hx => hne hx.1
      rw [if_neg hn, if_neg hn]
      exact ⟨a, b⟩
  · rw [step_TRAP_IN s hop hv]
    have hsg : ∀ t : VM, t.charSigned = s.charSigned →
        (∀ c cs, t.stdin = c :: cs →
          (trap_IN t).reg R_R0 =
            (if s.charSigned = true ∧ 128 ≤ c % 256 then 0xFF00 + c % 256 else c % 256) ∧
          (trap_IN t).reg R_COND =
            (if c % 256 = 0 then 2
             else if s.charSigned = true ∧ 128 ≤ c % 256 then 4 else 1) ∧
          (trap_IN t).stdin = cs) ∧
        (t.stdin = [] →
          (trap_IN t).reg R_R0 = (if s.charSigned = true then 0xFFFF else 0x00FF) ∧
          (trap_IN t).reg R_COND = (if s.charSigned = true then 4 else 1) ∧
          (trap_IN t).stdin = []) := by
      intro t ht
      rw [← ht]
      exact trap_IN_spec t
    obtain ⟨h1, h2⟩ := hsg
      { (fetch s).2 with reg := upd (fetch s).2.reg R_R7 ((fetch s).2.reg R_PC) } hcs
    constructor
    · intro c cs h
      obtain ⟨a, b, d⟩ := h1 c cs h
      refine ⟨?_, ?_, d⟩
      · rw [a]
        by_cases hx : s.charSigned = true ∧ 128 ≤ c % 256
        · rw [if_pos hx, if_pos (And.intro hv hx)]
        · rw [if_neg hx, if_neg (fun hy : (fetch s).1 &&& 0xff = TRAP_IN ∧
              s.charSigned = true ∧ 128 ≤ c % 256 => hx hy.2)]
      · rw [b]
        by_cases hx : s.charSigned = true ∧ 128 ≤ c % 256
        · rw [if_pos hx, if_pos (And.intro hv hx)]
        · rw [if_neg hx, if_neg (fun hy : (fetch s).1 &&& 0xff = TRAP_IN ∧
              s.charSigned = true ∧ 128 ≤ c % 256 => hx hy.2)]
    · intro h
      obtain ⟨a, b, _⟩ := h2 h
      rw [a, b]
      cases hsg : s.charSigned
      · simp [hv]
      · simp [hv]

/-- TRAP GETC (`0xF020`) on the booted machine with the character `A` (65)
pending: `R0 = 65`, `COND = POS`. -/
theorem input_trap_result_getc_A :
    (fetch (oneWordHost 0xF020 [65] [] true)).1 >>> 12 = OP_TRAP ∧
    (fetch (oneWordHost 0xF020 [65] [] true)).1 &&& 0xff = TRAP_GETC ∧
    (step (oneWordHost 0xF020 [65] [] true)).reg R_R0 = 65 ∧
    (step (oneWordHost 0xF020 [65] [] true)).reg R_COND = 1 ∧
    (step (oneWordHost 0xF020 [65] [] true)).stdin = [] :=
  ⟨by decide, by decide,
    (input_trap_result (oneWordHost 0xF020 [65] [] true) (by decide)
      (Or.inl (by decide))).1 65 [] rfl⟩

/-! ## C11 and C12: the string traps -/

/-- A fetch from `KBSR` yields the status cell itself, which is 0 or `0x8000`. -/
theorem fetch_kbsr_word (s : VM) (h : s.reg R_PC = MR_KBSR) :
    (fetch s).1 = 0 ∨ (fetch s).1 = 32768 := by
  unfold fetch
  dsimp only
  rw [h]
  rcases mem_read_kbsr_cases
      { s with reg := upd s.reg R_PC ((MR_KBSR + 1) % 65536) } with
    ⟨_, _, _, _, _, hm⟩ | ⟨_, _, _, hm⟩ | ⟨_, _, hm⟩ | ⟨_, hm⟩ <;> rw [hm] <;> simp

/-- A TRAP is never fetched from `KBSR`. -/
theorem trap_not_at_kbsr (s : VM) (hop : (fetch s).1 >>> 12 = OP_TRAP) :
    s.reg R_PC ≠ MR_KBSR := by
  intro h
  rcases fetch_kbsr_word s h with h0 | h0 <;> rw [h0] at hop <;> revert hop <;> decide

theorem puts_loop_first_zero (memory : Nat → Nat) (m : Nat) :
    ∀ (n c : Nat) (out : List Nat), m < n → memory (c + m) = 0 →
      (∀ k, k < m → memory (c + k) ≠ 0) →
      puts_loop memory n c out =
        some (out ++ (List.range m).map (fun k => memory (c + k) % 256)) := by
  induction m with
  | zero =>
    intro n c out hn hz _
    obtain ⟨n', rfl⟩ : ∃ n', n = n' + 1 := ⟨n - 1, by omega⟩
    have hz' : memory c = 0 := by simpa using hz
    simp [puts_loop, hz']
  | succ m ih =>
    intro n c out hn hz hnz
    obtain ⟨n', rfl⟩ : ∃ n', n = n' + 1 := ⟨n - 1, by omega⟩
    have h0 : memory c ≠ 0 := by simpa using hnz 0 (by omega)
    rw [puts_loop, if_pos h0]
    rw [ih n' (c + 1) _ (by omega) (by rw [← hz]; congr 1; omega)
      (fun k hk => by
        have := hnz (k + 1) (by omega)
        rwa [show c + (k + 1) = c + 1 + k by omega] at this)]
    rw [List.range_succ_eq_map, List.map_cons, List.map_map, List.append_assoc]
    congr 2
    simp only [List.singleton_append, Nat.add_zero, List.cons.injEq, true_and]
    apply List.map_congr_left
    intro k _
    simp only [Function.comp]
    rw [show c + 1 + k = c + (k + 1) by omega]

theorem putsp_loop_first_zero (memory : Nat → Nat) (m : Nat) :
    ∀ (n c : Nat) (out : List Nat), m < n → memory (c + m) = 0 →
      (∀ k, k < m → memory (c + k) ≠ 0) →
      putsp_loop memory n c out =
        some (out ++ (List.range m).flatMap (fun k =>
          if memory (c + k) / 256 % 256 ≠ 0
          then [memory (c + k) % 256, memory (c + k) / 256 % 256]
          else [memory (c + k) % 256])) := by
  induction m with
  | zero =>
    intro n c out hn hz _
    obtain ⟨n', rfl⟩ : ∃ n', n = n' + 1 := ⟨n - 1, by omega⟩
    have hz' : memory c = 0 := by simpa using hz
    simp [putsp_loop, hz']
  | succ m ih =>
    intro n c out hn hz hnz
    obtain ⟨n', rfl⟩ : ∃ n', n = n' + 1 := ⟨n - 1, by omega⟩
    have h0 : memory c ≠ 0 := by simpa using hnz 0 (by omega)
    have hlow : memory c &&& 0xff = memory c % 256 :=
      Nat.and_pow_two_sub_one_eq_mod (memory c) 8
    have hhigh : (memory c >>> 8) % 256 = memory c / 256 % 256 := by
      rw [Nat.shiftRight_eq_div_pow]
    rw [putsp_loop, if_pos h0]
    dsimp only
    rw [ih n' (c + 1) _ (by omega) (by rw [← hz]; congr 1; omega)
      (fun k hk => by
        have := hnz (k + 1) (by omega)
        rwa [show c + (k + 1) = c + 1 + k by omega] at this)]
    rw [List.range_succ_eq_map, List.flatMap_cons, List.flatMap_map, hlow, hhigh]
    have htail : (List.range m).flatMap (fun k =>
          if memory (c + 1 + k) / 256 % 256 ≠ 0
          then [memory (c + 1 + k) % 256, memory (c + 1 + k) / 256 % 256]
          else [memory (c + 1 + k) % 256]) =
        (List.range m).flatMap (fun k =>
          if memory (c + (k + 1)) / 256 % 256 ≠ 0
          then [memory (c + (k + 1)) % 256, memory (c + (k + 1)) / 256 % 256]
          else [memory (c + (k + 1)) % 256]) := by
      congr 1
      funext k
      rw [show c + 1 + k = c + (k + 1) by omega]
    rw [htail]
    by_cases hh : memory c / 256 % 256 ≠ 0
    · simp [hh, Function.comp]
    · simp [hh, Function.comp]

/-- A fetched TRAP comes from a plain cell, and the step is `op_TRAP` on the
state with the incremented `PC`. -/
theorem step_of_trap (s : VM) (hop : (fetch s).1 >>> 12 = OP_TRAP) :
    (fetch s).1 = s.memory (s.reg R_PC) ∧
    step s = op_TRAP (fetch s).1
      { s with reg := upd s.reg R_PC ((s.reg R_PC + 1) % 65536) } := by
  have hpre := trap_not_at_kbsr s hop
  have hf := fetch_plain s hpre
  refine ⟨by rw [hf], ?_⟩
  unfold step
  dsimp only
  rw [exec_TRAP _ _ hop, hf]

/-- The first zero word at or after `c`, when there is one up to `0xFFFF`. -/
theorem first_zero_exists (memory : Nat → Nat) (c : Nat)
    (h : ∃ a, c ≤ a ∧ a ≤ 0xFFFF ∧ memory a = 0) :
    ∃ z, c ≤ z ∧ z ≤ 0xFFFF ∧ memory z = 0 ∧
      ∀ a, c ≤ a → a < z → memory a ≠ 0 := by
  classical
  have hex : ∃ a, c ≤ a ∧ memory a = 0 := by
    obtain ⟨a, h1, _, h3⟩ := h
    exact ⟨a, h1, h3⟩
  refine ⟨Nat.find hex, (Nat.find_spec hex).1, ?_, (Nat.find_spec hex).2, ?_⟩
  · obtain ⟨a, h1, h2, h3⟩ := h
    exact le_trans (Nat.find_min' hex ⟨h1, h3⟩) h2
  · intro a ha hlt hz
    exact Nat.find_min hex hlt ⟨ha, hz⟩

/-- C11. For every state whose fetched word is TRAP PUTS (`0x22`) and in which
some address in `R0..0xFFFF` holds a zero word, with `z` the first such address:
the step appends to the host output exactly one byte per word, the low 8 bits
of `mem[R0], mem[R0+1], ...`, in order, for the words before `z`, and nothing
for the zero word; memory, `R0..R6` and `COND` are unchanged and
`R7 = (pre + 1) mod 2^16`, `pre` being the `PC` before the fetch. -/
theorem puts_writes_low_bytes (s : VM) (hop : (fetch s).1 >>> 12 = OP_TRAP)
    (hv : (fetch s).1 &&& 0xff = TRAP_PUTS)
    (hzero : ∃ a, s.reg R_R0 ≤ a ∧ a ≤ 0xFFFF ∧ s.memory a = 0) :
    ∃ z, s.reg R_R0 ≤ z ∧ z ≤ 0xFFFF ∧ s.memory z = 0 ∧
      (∀ a, s.reg R_R0 ≤ a → a < z → s.memory a ≠ 0) ∧
      (step s).stdout = s.stdout ++
        (List.range (z - s.reg R_R0)).map (fun k => s.memory (s.reg R_R0 + k) % 256) ∧
      (step s).memory = s.memory ∧
      (∀ j, j ≤ 6 → (step s).reg j = s.reg j) ∧
      (step s).reg R_COND = s.reg R_COND ∧
      (step s).reg R_R7 = (s.reg R_PC + 1) % 65536 := by
  obtain ⟨z, hz1, hz2, hz3, hz4⟩ := first_zero_exists s.memory (s.reg R_R0) hzero
  refine ⟨z, hz1, hz2, hz3, hz4, ?_⟩
  obtain ⟨_, hstep⟩ := step_of_trap s hop
  have hloop := puts_loop_first_zero s.memory (z - s.reg R_R0)
    (MEMORY_MAX - s.reg R_R0) (s.reg R_R0) [] (by rw [MEMORY_MAX_eq]; omega)
    (by rw [show s.reg R_R0 + (z - s.reg R_R0) = z by omega]; exact hz3)
    (fun k hk => hz4 _ (by omega) (by omega))
  have hr0 : upd (upd s.reg R_PC ((s.reg R_PC + 1) % 65536)) R_R7
      (upd s.reg R_PC ((s.reg R_PC + 1) % 65536) R_PC) R_R0 = s.reg R_R0 := by
    rw [upd_ne _ _ _ _ (by decide), upd_ne _ _ _ _ (by decide)]
  rw [hstep]
  unfold op_TRAP
  dsimp only
  rw [hv, if_neg (by decide), if_neg (by decide), if_pos rfl]
  unfold trap_PUTS
  dsimp only
  rw [hr0, hloop]
  dsimp only [putBytes]
  refine ⟨by simp, rfl, ?_, ?_, ?_⟩
  · intro j hj
    rw [upd_ne _ _ _ _ (by simp only [R_R7]; omega),
      upd_ne _ _ _ _ (by simp only [R_PC]; omega)]
  · rw [upd_ne _ _ _ _ (by decide), upd_ne _ _ _ _ (by decide)]
  · rw [upd_same, upd_same]

/-- C12. For every state whose fetched word is TRAP PUTSP (`0x24`) and in
which some address in `R0..0xFFFF` holds a zero word, with `z` the first such
address: the step appends to the host output, for each word `W` from `mem[R0]`
up to but excluding `mem[z]`, in address order, the low byte of `W` followed by
the high byte of `W` when that high byte is nonzero, and no second byte when it
is zero; nothing is written for the zero word, and memory, `R0..R6` and `COND`
are unchanged. -/
theorem putsp_writes_packed_bytes (s : VM) (hop : (fetch s).1 >>> 12 = OP_TRAP)
    (hv : (fetch s).1 &&& 0xff = TRAP_PUTSP)
    (hzero : ∃ a, s.reg R_R0 ≤ a ∧ a ≤ 0xFFFF ∧ s.memory a = 0) :
    ∃ z, s.reg R_R0 ≤ z ∧ z ≤ 0xFFFF ∧ s.memory z = 0 ∧
      (∀ a, s.reg R_R0 ≤ a → a < z → s.memory a ≠ 0) ∧
      (step s).stdout = s.stdout ++
        (List.range (z - s.reg R_R0)).flatMap (fun k =>
          if s.memory (s.reg R_R0 + k) / 256 % 256 ≠ 0
          then [s.memory (s.reg R_R0 + k) % 256, s.memory (s.reg R_R0 + k) / 256 % 256]
          else [s.memory (s.reg R_R0 + k) % 256]) ∧
      (step s).memory = s.memory ∧
      (∀ j, j ≤ 6 → (step s).reg j = s.reg j) ∧
      (step s).reg R_COND = s.reg R_COND := by
  obtain ⟨z, hz1, hz2, hz3, hz4⟩ := first_zero_exists s.memory (s.reg R_R0) hzero
  refine ⟨z, hz1, hz2, hz3, hz4, ?_⟩
  obtain ⟨_, hstep⟩ := step_of_trap s hop
  have hloop := putsp_loop_first_zero s.memory (z - s.reg R_R0)
    (MEMORY_MAX - s.reg R_R0) (s.reg R_R0) [] (by rw [MEMORY_MAX_eq]; omega)
    (by rw [show s.reg R_R0 + (z - s.reg R_R0) = z by omega]; exact hz3)
    (fun k hk => hz4 _ (by omega) (by omega))
  have hr0 : upd (upd s.reg R_PC ((s.reg R_PC + 1) % 65536)) R_R7
      (upd s.reg R_PC ((s.reg R_PC + 1) % 65536) R_PC) R_R0 = s.reg R_R0 := by
    rw [upd_ne _ _ _ _ (by decide), upd_ne _ _ _ _ (by decide)]
  rw [hstep]
  unfold op_TRAP
  dsimp only
  rw [hv, if_neg (by decide), if_neg (by decide), if_neg (by decide), if_neg (by decide),
    if_pos rfl]
  unfold trap_PUTSP
  dsimp only
  rw [hr0, hloop]
  dsimp only [putBytes]
  refine ⟨by simp, rfl, ?_, ?_⟩
  · intro j hj
    rw [upd_ne _ _ _ _ (by simp only [R_R7]; omega),
      upd_ne _ _ _ _ (by simp only [R_PC]; omega)]
  · rw [upd_ne _ _ _ _ (by decide), upd_ne _ _ _ _ (by decide)]

/-! ## C13: unknown TRAP vectors -/

/-- C13. For every state whose fetched word is a TRAP with a vector (bits
7..0) outside `0x20..0x25`, fetched from an address other than `0xFE00`:
afterwards `R7 = (pre + 1) mod 2^16` and `PC = (pre + 1) mod 2^16`, while
`R0..R6`, `COND`, memory, the host input and the host output are unchanged and
the status of the loop is what it was, so a running loop keeps running. -/
theorem unknown_trap_is_noop (s : VM) (hop : (fetch s).1 >>> 12 = OP_TRAP)
    (hv : ¬ (0x20 ≤ (fetch s).1 &&& 0xff ∧ (fetch s).1 &&& 0xff ≤ 0x25))
    (_hpre : s.reg R_PC ≠ 0xFE00) :
    (step s).reg R_R7 = (s.reg R_PC + 1) % 65536 ∧
    (step s).reg R_PC = (s.reg R_PC + 1) % 65536 ∧
    (∀ j, j ≤ 6 → (step s).reg j = s.reg j) ∧
    (step s).reg R_COND = s.reg R_COND ∧
    (step s).memory = s.memory ∧
    (step s).stdin = s.stdin ∧ (step s).ready = s.ready ∧
    (step s).stdout = s.stdout ∧
    (step s).status = s.status := by
  obtain ⟨_, hstep⟩ := step_of_trap s hop
  rw [hstep]
  unfold op_TRAP
  dsimp only
  rw [if_neg (by simp only [TRAP_GETC]; omega), if_neg (by simp only [TRAP_OUT]; omega),
    if_neg (by simp only [TRAP_PUTS]; omega), if_neg (by simp only [TRAP_IN]; omega),
    if_neg (by simp only [TRAP_PUTSP]; omega), if_neg (by simp only [TRAP_HALT]; omega)]
  refine ⟨?_, ?_, ?_, ?_, rfl, rfl, rfl, rfl, rfl⟩
  · dsimp only
    rw [upd_same, upd_same]
  · dsimp only
    rw [upd_ne _ R_R7 _ R_PC (by decide), upd_same]
  · intro j hj
    dsimp only
    rw [upd_ne _ R_R7 _ j (by simp only [R_R7]; omega),
      upd_ne _ R_PC _ j (by simp only [R_PC]; omega)]
  · dsimp only
    rw [upd_ne _ R_R7 _ R_COND (by decide), upd_ne _ R_PC _ R_COND (by decide)]

/-! ## C14: how one iteration of the loop ends -/

theorem fetch_stdout (s : VM) : (fetch s).2.stdout = s.stdout := by
  unfold fetch
  rw [mem_read_stdout]

/-- C15, as stated, fails. The run of `[0xE003, 0xF022, 0xF025, 0x0048,
0x0069, 0x0000]` from `0x3000` writes `i` and then `HALT\n`: the bytes are not
those of `Hi` followed by `HALT\n`. -/
theorem hello_scenario_prints_i :
    (run 3 (bootProgram [0xE003, 0xF022, 0xF025, 0x0048, 0x0069, 0x0000])).stdout
      = [105, 72, 65, 76, 84, 10] ∧
    (run 3 (bootProgram [0xE003, 0xF022, 0xF025, 0x0048, 0x0069, 0x0000])).stdout
      ≠ [72, 105, 72, 65, 76, 84, 10] := by
  refine ⟨by decide, by decide⟩

/-- C15, amended. From the boot state with `[0xE003, 0xF022, 0xF025, 0x0048,
0x0069, 0x0000]` loaded at `0x3000`, the run executes LEA, PUTS, HALT and then
stops cleanly.  LEA adds its offset 3 to the incremented `PC`, `0x3001`, so
`R0 = 0x3004`, the address of `0x0069`, and the bytes written to the host
output are exactly `i` followed by `HALT\n`. -/
theorem hello_scenario_run :
    (fetch (bootProgram [0xE003, 0xF022, 0xF025, 0x0048, 0x0069, 0x0000])).1 = 0xE003 ∧
    (run 1 (bootProgram [0xE003, 0xF022, 0xF025, 0x0048, 0x0069, 0x0000])).reg R_R0
      = 0x3004 ∧
    (run 1 (bootProgram [0xE003, 0xF022, 0xF025, 0x0048, 0x0069, 0x0000])).memory 0x3004
      = 0x0069 ∧
    (fetch (run 1 (bootProgram [0xE003, 0xF022, 0xF025, 0x0048, 0x0069, 0x0000]))).1
      = 0xF022 ∧
    (run 2 (bootProgram [0xE003, 0xF022, 0xF025, 0x0048, 0x0069, 0x0000])).stdout = [105] ∧
    (run 2 (bootProgram [0xE003, 0xF022, 0xF025, 0x0048, 0x0069, 0x0000])).status
      = Status.running ∧
    (fetch (run 2 (bootProgram [0xE003, 0xF022, 0xF025, 0x0048, 0x0069, 0x0000]))).1
      = 0xF025 ∧
    (run 3 (bootProgram [0xE003, 0xF022, 0xF025, 0x0048, 0x0069, 0x0000])).status
      = Status.halted ∧
    (run 3 (bootProgram [0xE003, 0xF022, 0xF025, 0x0048, 0x0069, 0x0000])).stdout
      = [105] ++ [72, 65, 76, 84, 10] ∧
    run 4 (bootProgram [0xE003, 0xF022, 0xF025, 0x0048, 0x0069, 0x0000])
      = run 3 (bootProgram [0xE003, 0xF022, 0xF025, 0x0048, 0x0069, 0x0000]) := by
  refine ⟨by decide, by decide, by decide, by decide, by decide, by decide, by decide,
    by decide, by decide, rfl⟩

/-! ## C16: the JSR scenario -/

/-- The memory of the JSR scenario, cell by cell. -/
theorem jsr_scenario_memory (a : Nat) :
    (bootProgram [0x4802, 0xF025, 0xC1C0]).memory a =
      if a = 0x3000 then 0x4802 else if a = 0x3001 then 0xF025
      else if a = 0x3002 then 0xC1C0 else 0 := by
  simp [bootProgram, boot, read_image_file, image, be_bytes, fread, swap_loop, upd,
    word_of_bytes, swap16]
  split_ifs <;> first | rfl | omega

/-- C16, as stated, fails. In the run of `[0x4802, 0xF025, 0xC1C0]` from
`0x3000` the JSR adds its offset 2 to the incremented `PC`, `0x3001`: after the
first instruction `PC = 0x3003`, not `0x3002`, so the second instruction
executed is the zero word at `0x3003`, not the JMP R7 at `0x3002`, and after it
`PC = 0x3004`, not `0x3001`; three instructions in, the loop has not stopped. -/
theorem jsr_scenario_skips_jmp :
    (run 1 (bootProgram [0x4802, 0xF025, 0xC1C0])).reg R_R7 = 0x3001 ∧
    (run 1 (bootProgram [0x4802, 0xF025, 0xC1C0])).reg R_PC = 0x3003 ∧
    (fetch (run 1 (bootProgram [0x4802, 0xF025, 0xC1C0]))).1 = 0x0000 ∧
    (run 2 (bootProgram [0x4802, 0xF025, 0xC1C0])).reg R_PC = 0x3004 ∧
    (run 3 (bootProgram [0x4802, 0xF025, 0xC1C0])).status = Status.running := by
  refine ⟨by decide, by decide, by decide, by decide, by decide⟩

/-- The zero word is a BR that is never taken. -/
theorem exec_zero (t : VM) : exec 0 t = t := by
  rw [exec_BR 0 t (by decide)]
  unfold op_BR
  dsimp only
  rw [if_neg]
  simp

theorem jsrInv_step (s : VM) (h : jsrInv s) : jsrInv (step s) := by
  obtain ⟨hst, hrd, hmem, hlt, h1, h2⟩ := h
  by_cases hk : s.reg R_PC = MR_KBSR
  · have hf : fetch s = (0, mem_write
        { s with reg := upd s.reg R_PC ((s.reg R_PC + 1) % 65536) } MR_KBSR 0) := by
      unfold fetch
      dsimp only
      rw [hk]
      rcases mem_read_kbsr_cases
          { s with reg := upd s.reg R_PC ((MR_KBSR + 1) % 65536) } with
        ⟨_, _, _, _, hr, _⟩ | ⟨_, _, hr, _⟩ | ⟨_, hr, _⟩ | ⟨_, hm⟩
      · rw [hrd] at hr; cases hr
      · rw [hrd] at hr; cases hr
      · rw [hrd] at hr; cases hr
      · rw [hm]
        rfl
    have hs : step s = mem_write
        { s with reg := upd s.reg R_PC ((s.reg R_PC + 1) % 65536) } MR_KBSR 0 := by
      unfold step
      dsimp only
      rw [hf]
      exact exec_zero _
    rw [hs]
    refine ⟨hst, hrd, ?_, ?_, ?_, ?_⟩
    · intro a
      show upd s.memory MR_KBSR 0 a = _
      unfold upd
      split_ifs with ha
      · rw [ha, jsr_scenario_memory]
        decide
      · exact hmem a
    · show upd s.reg R_PC ((s.reg R_PC + 1) % 65536) R_PC < 65536
      rw [upd_same]; omega
    · show upd s.reg R_PC ((s.reg R_PC + 1) % 65536) R_PC ≠ 0x3001
      rw [upd_same, hk]; decide
    · show upd s.reg R_PC ((s.reg R_PC + 1) % 65536) R_PC ≠ 0x3002
      rw [upd_same, hk]; decide
  · have hf := fetch_plain s hk
    unfold step
    dsimp only
    rw [hf]
    dsimp only
    by_cases h0 : s.reg R_PC = 0x3000
    · have hi : s.memory (s.reg R_PC) = 0x4802 := by
        rw [hmem, jsr_scenario_memory, h0]
        decide
      rw [hi, exec_JSR _ _ (by decide)]
      unfold op_JSR
      dsimp only
      rw [if_pos (by decide)]
      have hpc : upd (upd s.reg R_PC ((s.reg R_PC + 1) % 65536)) R_R7
          (upd s.reg R_PC ((s.reg R_PC + 1) % 65536) R_PC) R_PC = 0x3001 := by
        rw [upd_ne _ R_R7 _ R_PC (by decide), upd_same, h0]
      have hse : sign_extend (0x4802 &&& 0x7ff) 11 = 2 := by decide
      refine ⟨hst, hrd, hmem, ?_, ?_, ?_⟩
      · dsimp only; rw [upd_same]; omega
      · dsimp only; rw [upd_same, hpc, hse]; decide
      · dsimp only; rw [upd_same, hpc, hse]; decide
    · have hi : s.memory (s.reg R_PC) = 0 := by
        rw [hmem, jsr_scenario_memory, if_neg h0, if_neg h1, if_neg h2]
      rw [hi, exec_zero]
      refine ⟨hst, hrd, hmem, ?_, ?_, ?_⟩
      · dsimp only; rw [upd_same]; omega
      · dsimp only; rw [upd_same]; omega
      · dsimp only; rw [upd_same]; omega

theorem jsrInv_run (n : Nat) : ∀ s, jsrInv s → jsrInv (run n s) := by
  induction n with
  | zero => intro s h; exact h
  | succ n ih =>
    intro s h
    rw [run, if_pos h.1]
    exact ih _ (jsrInv_step s h)

/-- C16, amended. From the boot state with `[0x4802, 0xF025, 0xC1C0]` loaded
at `0x3000` and no host input, after the first instruction (JSR +2)
`R7 = 0x3001` and `PC = 0x3003`, the offset being added to the incremented
`PC`.  The second instruction executed is the zero word at `0x3003`, a BR that
is never taken, which leaves `PC = 0x3004`.  However many instructions are
executed, `PC` is never `0x3001` nor `0x3002` before a fetch, so neither the
TRAP HALT nor the JMP R7 is executed, and the loop never stops. -/
theorem jsr_scenario_never_halts (n : Nat) :
    (run 1 (bootProgram [0x4802, 0xF025, 0xC1C0])).reg R_R7 = 0x3001 ∧
    (run 1 (bootProgram [0x4802, 0xF025, 0xC1C0])).reg R_PC = 0x3003 ∧
    (fetch (run 1 (bootProgram [0x4802, 0xF025, 0xC1C0]))).1 = 0x0000 ∧
    (run 2 (bootProgram [0x4802, 0xF025, 0xC1C0])).reg R_PC = 0x3004 ∧
    (run n (bootProgram [0x4802, 0xF025, 0xC1C0])).status = Status.running ∧
    (run n (bootProgram [0x4802, 0xF025, 0xC1C0])).reg R_PC ≠ 0x3001 ∧
    (run n (bootProgram [0x4802, 0xF025, 0xC1C0])).reg R_PC ≠ 0x3002 := by
  have h0 : jsrInv (bootProgram [0x4802, 0xF025, 0xC1C0]) :=
    ⟨rfl, rfl, fun _ => rfl, by decide, by decide, by decide⟩
  have hn := jsrInv_run n _ h0
  exact ⟨by decide, by decide, by decide, by decide, hn.1, hn.2.2.2.2.1, hn.2.2.2.2.2⟩

/-! ## C17: sign extension -/

theorem testBit_65535 : ∀ k, k < 16 → Nat.testBit 65535 k = true := by decide

/-- The test of `sign_extend` on a field below `P = 2^n`: bit `n-1` is set iff
the field is at least `H = 2^(n-1)`. -/
theorem sign_bit_iff (x n P H : Nat) (hH : 2 ^ (n - 1) = H) (hPH : P = 2 * H)
    (hx : x < P) : ((x >>> (n - 1)) &&& 1 ≠ 0) ↔ H ≤ x := by
  rw [Nat.shiftRight_eq_div_pow, Nat.and_one_is_mod, hH]
  have hHpos : 0 < H := by omega
  have h1 : x / H < 2 := by
    rw [Nat.div_lt_iff_lt_mul hHpos]
    omega
  have h2 : H ≤ x ↔ 1 ≤ x / H := by
    rw [Nat.le_div_iff_mul_le hHpos]
    omega
  generalize x / H = q at h1 h2 ⊢
  omega

/-- Sign extension in arithmetic, for a width between 1 and 16 of which `P` is
the power of two and `H` half of it. -/
theorem sign_extend_arith (x n P H : Nat) (hP : 2 ^ n = P) (hH : 2 ^ (n - 1) = H)
    (hPH : P = 2 * H) (hle : P ≤ 65536) (hx : x < P) :
    sign_extend x n = if H ≤ x then x + 65536 - P else x := by
  unfold sign_extend
  have hcond := sign_bit_iff x n P H hH hPH hx
  have hor : x ||| (0xffff <<< n) = P * 0xffff + x := by
    rw [Nat.shiftLeft_eq, hP, Nat.or_comm, Nat.mul_comm, ← hP]
    exact (Nat.mul_add_lt_is_or (by rw [hP]; exact hx) _).symm
  by_cases h : H ≤ x
  · rw [if_pos (hcond.2 h), if_pos h, hor]
    omega
  · rw [if_neg (fun hc => h (hcond.1 hc)), if_neg h]

theorem testBit_iff_cond (x k : Nat) :
    x.testBit k = true ↔ (x >>> k) &&& 1 ≠ 0 := by
  unfold Nat.testBit
  rw [Nat.and_comm]
  simp

/-- Sign extension bit by bit, for a width between 1 and 16. -/
theorem sign_extend_bits (x n : Nat) (hn1 : 1 ≤ n) (hn : n ≤ 16) (hx : x < 2 ^ n) :
    (∀ i, i < n → (sign_extend x n).testBit i = x.testBit i) ∧
    (∀ i, n ≤ i → i < 16 → (sign_extend x n).testBit i = x.testBit (n - 1)) := by
  have hhigh : ∀ i, n ≤ i → x.testBit i = false := by
    intro i hi
    apply Nat.testBit_lt_two_pow
    exact lt_of_lt_of_le hx (Nat.pow_le_pow_right (by norm_num) hi)
  by_cases hc : (x >>> (n - 1)) &&& 1 ≠ 0
  · have ht : x.testBit (n - 1) = true := (testBit_iff_cond x (n - 1)).2 hc
    have hse : sign_extend x n = (x ||| (0xffff <<< n)) % 2 ^ 16 := by
      unfold sign_extend
      rw [if_pos hc]
      norm_num
    rw [hse]
    constructor
    · intro i hi
      rw [Nat.testBit_mod_two_pow, Nat.testBit_or, Nat.testBit_shiftLeft]
      have h1 : decide (i < 16) = true := by simp; omega
      have h2 : decide (i ≥ n) = false := by simp; omega
      rw [h1, h2]
      simp
    · intro i hi hi16
      rw [Nat.testBit_mod_two_pow, Nat.testBit_or, Nat.testBit_shiftLeft, ht, hhigh i hi]
      have h1 : decide (i < 16) = true := by simp; omega
      have h2 : decide (i ≥ n) = true := by simp; omega
      rw [h1, h2, testBit_65535 (i - n) (by omega)]
      rfl
  · have ht : x.testBit (n - 1) = false := by
      cases hb : x.testBit (n - 1)
      · rfl
      · exact absurd ((testBit_iff_cond x (n - 1)).1 hb) hc
    have hse : sign_extend x n = x := by
      unfold sign_extend
      rw [if_neg hc]
    rw [hse, ht]
    exact ⟨fun _ _ => rfl, fun i hi _ => hhigh i hi⟩

/-- C17. For every width `n` in {5, 6, 9, 11} and every field value
`x < 2^n`, `sign_extend x n` is the 16-bit two's-complement representation of
`x` read as an `n`-bit signed integer: it is `x` when bit `n-1` of `x` is 0 and
`x + 2^16 - 2^n` when bit `n-1` is 1; bits `n-1..0` of the result are those of
`x` and bits `15..n` all equal bit `n-1` of `x`, and nothing is set above
bit 15. -/
theorem sign_extend_twos_complement (n x : Nat)
    (hn : n = 5 ∨ n = 6 ∨ n = 9 ∨ n = 11) (hx : x < 2 ^ n) :
    sign_extend x n = (if x.testBit (n - 1) = true then x + 2 ^ 16 - 2 ^ n else x) ∧
    (∀ i, i < n → (sign_extend x n).testBit i = x.testBit i) ∧
    (∀ i, n ≤ i → i < 16 → (sign_extend x n).testBit i = x.testBit (n - 1)) ∧
    sign_extend x n < 2 ^ 16 := by
  have hn1 : 1 ≤ n := by omega
  have hn16 : n ≤ 16 := by omega
  have hP : (2 : Nat) ^ n ≤ 65536 := by
    rcases hn with rfl | rfl | rfl | rfl <;> norm_num
  have hPH : (2 : Nat) ^ n = 2 * 2 ^ (n - 1) := by
    rcases hn with rfl | rfl | rfl | rfl <;> norm_num
  have harith := sign_extend_arith x n (2 ^ n) (2 ^ (n - 1)) rfl rfl hPH hP hx
  have hbits := sign_extend_bits x n hn1 hn16 hx
  have hcond : x.testBit (n - 1) = true ↔ 2 ^ (n - 1) ≤ x := by
    rw [testBit_iff_cond]
    exact sign_bit_iff x n (2 ^ n) (2 ^ (n - 1)) rfl hPH hx
  refine ⟨?_, hbits.1, hbits.2, ?_⟩
  · rw [harith]
    by_cases hle : 2 ^ (n - 1) ≤ x
    · rw [if_pos hle, if_pos (hcond.2 hle)]
      norm_num
    · rw [if_neg hle, if_neg (fun hc => hle (hcond.1 hc))]
  · rw [harith]
    have h16 : (2 : Nat) ^ 16 = 65536 := by norm_num
    rw [h16]
    generalize 2 ^ n = P at *
    generalize 2 ^ (n - 1) = H at *
    split_ifs <;> omega

/-- C17 at width 5 and the field value `0x1F`: the result is `0xFFFF`. -/
theorem sign_extend_twos_complement_witness :
    (0x1F : Nat) < 2 ^ 5 ∧ sign_extend 0x1F 5 = 0xFFFF :=
  ⟨by norm_num, (sign_extend_twos_complement 5 0x1F (Or.inl rfl) (by norm_num)).1⟩

/-! ## C18: the flag invariant on reachable states -/

/-- The count `fread` returns and the cells it leaves alone. -/
theorem fread_frame (pe : Nat → Nat → Nat) (n : Nat) :
    ∀ (memory : Nat → Nat) (p : Nat) (file : List Nat),
      (fread pe memory p n file).2 = min n (file.length / 2) ∧
      (∀ a, a < p → (fread pe memory p n file).1 a = memory a) ∧
      (∀ a, p + n ≤ a → (fread pe memory p n file).1 a = memory a) ∧
      (∀ a, p + (fread pe memory p n file).2 < a →
        (fread pe memory p n file).1 a = memory a) ∧
      (file.length % 2 = 0 → ∀ a, p + (fread pe memory p n file).2 ≤ a →
        (fread pe memory p n file).1 a = memory a) := by
  induction n with
  | zero =>
    intro memory p file
    rw [fread_zero]
    simp
  | succ n ih =>
    intro memory p file
    match file with
    | [] =>
      rw [fread]
      simp
    | [b] =>
      rw [fread]
      refine ⟨by simp, ?_, ?_, ?_, ?_⟩
      · intro a ha
        exact upd_ne _ _ _ _ (by omega)
      · intro a ha
        exact upd_ne _ _ _ _ (by omega)
      · intro a ha
        exact upd_ne _ _ _ _ (by simp at ha; omega)
      · intro h
        simp at h
    | b0 :: b1 :: rest =>
      rw [fread]
      obtain ⟨i1, i2, i3, i4, i5⟩ := ih (upd memory p (word_of_bytes b0 b1)) (p + 1) rest
      dsimp only
      refine ⟨?_, ?_, ?_, ?_, ?_⟩
      · rw [i1]
        simp only [List.length_cons]
        omega
      · intro a ha
        rw [i2 a (by omega)]
        exact upd_ne _ _ _ _ (by omega)
      · intro a ha
        rw [i3 a (by omega)]
        exact upd_ne _ _ _ _ (by omega)
      · intro a ha
        rw [i4 a (by omega)]
        exact upd_ne _ _ _ _ (by omega)
      · intro h a ha
        rw [i5 (by simp only [List.length_cons] at h; omega) a (by omega)]
        exact upd_ne _ _ _ _ (by omega)

/-- What one more byte after an even number of bytes changes in `fread`: the
count is the same, and only the cell after the last complete element differs,
when that element was still asked for. -/
theorem fread_trailing (pe : Nat → Nat → Nat) (b : Nat) (n : Nat) :
    ∀ (memory : Nat → Nat) (p : Nat) (body : List Nat), body.length % 2 = 0 →
      (fread pe memory p n (body ++ [b])).2 = (fread pe memory p n body).2 ∧
      ∀ a, (fread pe memory p n (body ++ [b])).1 a =
        if a = p + body.length / 2 ∧ body.length / 2 < n then
          pe ((fread pe memory p n body).1 a) b
        else (fread pe memory p n body).1 a := by
  induction n with
  | zero =>
    intro memory p body _
    rw [fread_zero, fread_zero]
    simp
  | succ n ih =>
    intro memory p body hb
    match body with
    | [] =>
      simp only [List.nil_append]
      rw [fread, fread]
      refine ⟨rfl, ?_⟩
      intro a
      by_cases ha : a = p
      · subst ha
        simp [upd]
      · have hn : ¬ (a = p + ([] : List Nat).length / 2 ∧
            ([] : List Nat).length / 2 < n + 1) := by
          simp; omega
        rw [if_neg hn]
        exact upd_ne _ _ _ _ ha
    | [x] => simp at hb
    | b0 :: b1 :: rest =>
      have hr : rest.length % 2 = 0 := by
        simp only [List.length_cons] at hb
        omega
      simp only [List.cons_append]
      rw [fread, fread]
      obtain ⟨i1, i2⟩ := ih (upd memory p (word_of_bytes b0 b1)) (p + 1) rest hr
      dsimp only
      refine ⟨by rw [i1], ?_⟩
      intro a
      rw [i2]
      simp only [List.length_cons]
      by_cases hc : a = p + 1 + rest.length / 2 ∧ rest.length / 2 < n
      · rw [if_pos hc, if_pos (by omega)]
      · rw [if_neg hc, if_neg (by omega)]

/-- The loader on a source that has its two origin bytes. -/
theorem read_image_file_cons (pe : Nat → Nat → Nat) (junk b0 b1 : Nat)
    (body : List Nat) (memory : Nat → Nat) :
    read_image_file pe junk (b0 :: b1 :: body) memory =
      swap_loop
        (fread pe memory (b0 % 256 * 256 + b1 % 256)
          ((65536 - (b0 % 256 * 256 + b1 % 256)) % 65536) body).1
        (b0 % 256 * 256 + b1 % 256)
        (fread pe memory (b0 % 256 * 256 + b1 % 256)
          ((65536 - (b0 % 256 * 256 + b1 % 256)) % 65536) body).2 := by
  unfold read_image_file
  dsimp only [List.drop]
  rw [swap16_word_of_bytes, MEMORY_MAX_eq]

/-- C19, as stated, fails. With a C library that stores the bytes it read of
a partial element, the three-byte source `30 00 AB` loaded into zeroed memory
leaves `memory[0x3000] = 0x00AB`, while the same source without its last byte
leaves `memory[0x3000] = 0`. -/
theorem trailing_byte_reaches_memory :
    [0x30, 0x00, 0xAB].length % 2 = 1 ∧
    [0x30, 0x00, 0xAB].dropLast = [0x30, 0x00] ∧
    read_image_file partial_low_byte 0 [0x30, 0x00, 0xAB] (fun _ => 0) 0x3000 = 0x00AB ∧
    read_image_file partial_low_byte 0 [0x30, 0x00] (fun _ => 0) 0x3000 = 0 := by
  refine ⟨by decide, by decide, by decide, by decide⟩

/-- C19, amended. For every byte source of odd total length at least 3, with
origin `O` and `n` complete body words, loading it leaves every memory cell as
loading the same source with its last byte removed, except the cell `O + n`
when `n` is below the bound `max_read`: `fread` reads the trailing byte into
that cell as a partial element, C leaves its value indeterminate (here
`partialElem` of the old value and the byte), and the swap loop does not touch
it.  Where the library leaves a half-read element as it was, no cell differs. -/
theorem trailing_byte_touches_one_cell (partialElem : Nat → Nat → Nat) (junk : Nat)
    (file : List Nat) (memory : Nat → Nat) (O n : Nat)
    (hlen : 3 ≤ file.length) (hodd : file.length % 2 = 1)
    (hO : O = file.getD 0 0 % 256 * 256 + file.getD 1 0 % 256)
    (hn : n = (file.length - 3) / 2) :
    (∀ a, read_image_file partialElem junk file memory a =
      if a = O + n ∧ n < (65536 - O) % 65536 then
        partialElem (read_image_file partialElem junk file.dropLast memory a)
          (file.getLastD 0)
      else read_image_file partialElem junk file.dropLast memory a) ∧
    ((∀ old, partialElem old (file.getLastD 0) = old) →
      ∀ a, read_image_file partialElem junk file memory a =
        read_image_file partialElem junk file.dropLast memory a) := by
  obtain ⟨b0, b1, body, b, rfl, hbody⟩ :
      ∃ b0 b1 body b, file = b0 :: b1 :: (body ++ [b]) ∧ body.length % 2 = 0 := by
    match file, hlen, hodd with
    | b0 :: b1 :: c :: rest, _, hodd =>
      refine ⟨b0, b1, (c :: rest).dropLast, (c :: rest).getLast (by simp), ?_, ?_⟩
      · rw [List.dropLast_append_getLast]
      · simp only [List.length_cons, List.length_dropLast] at hodd ⊢
        omega
  have hdl : (b0 :: b1 :: (body ++ [b])).dropLast = b0 :: b1 :: body := by
    simp [List.dropLast]
  have hlast : (b0 :: b1 :: (body ++ [b])).getLastD 0 = b := by
    simp [List.getLastD]
  have hO' : O = b0 % 256 * 256 + b1 % 256 := by
    rw [hO]; rfl
  have hn' : n = body.length / 2 := by
    rw [hn]
    simp only [List.length_cons, List.length_append, List.length_nil]
    omega
  have key : ∀ a, read_image_file partialElem junk (b0 :: b1 :: (body ++ [b])) memory a =
      if a = O + n ∧ n < (65536 - O) % 65536 then
        partialElem (read_image_file partialElem junk (b0 :: b1 :: body) memory a) b
      else read_image_file partialElem junk (b0 :: b1 :: body) memory a := by
    intro a
    rw [read_image_file_cons, read_image_file_cons, ← hO']
    obtain ⟨t1, t2⟩ := fread_trailing partialElem b ((65536 - O) % 65536) memory O body hbody
    obtain ⟨f1, _, _, _, f5⟩ := fread_frame partialElem ((65536 - O) % 65536) memory O body
    rw [t1, swap_loop_get, swap_loop_get, t2, ← hn']
    by_cases hc : a = O + n ∧ n < (65536 - O) % 65536
    · have hcnt : (fread partialElem memory O ((65536 - O) % 65536) body).2 = n := by
        rw [f1, ← hn']
        omega
      have hout : ¬ (O ≤ a ∧ a < O +
          (fread partialElem memory O ((65536 - O) % 65536) body).2) := by
        rw [hcnt]; omega
      rw [if_neg hout, if_pos hc, if_pos hc, if_neg hout]
    · rw [if_neg hc, if_neg hc]
  rw [hdl, hlast]
  refine ⟨key, ?_⟩
  intro hpe a
  rw [key a]
  split_ifs
  · exact hpe _
  · rfl

/-- C19 on the source `30 00 12 34 AB` with a library that leaves a half-read
element as it was: `memory[0x3001]` is what it is without the last byte. -/
theorem trailing_byte_touches_one_cell_witness :
    3 ≤ [0x30, 0x00, 0x12, 0x34, 0xAB].length ∧
    [0x30, 0x00, 0x12, 0x34, 0xAB].length % 2 = 1 ∧
    read_image_file (fun old _ => old) 0 [0x30, 0x00, 0x12, 0x34, 0xAB] (fun _ => 0) 0x3001 =
      read_image_file (fun old _ => old) 0 [0x30, 0x00, 0x12, 0x34, 0xAB].dropLast
        (fun _ => 0) 0x3001 :=
  ⟨by decide, by decide,
    (trailing_byte_touches_one_cell (fun old _ => old) 0 [0x30, 0x00, 0x12, 0x34, 0xAB]
      (fun _ => 0) 0x3000 1 (by decide) (by decide) (by decide) (by decide)).2
      (fun _ => rfl) 0x3001⟩

/-- C11 on the PUTS scenario after its LEA: the zero word is at `0x3005` and
the one byte written is `i`. -/
theorem puts_writes_low_bytes_witness :
    (fetch putsDemo).1 >>> 12 = OP_TRAP ∧ (fetch putsDemo).1 &&& 0xff = TRAP_PUTS ∧
    (∃ a, putsDemo.reg R_R0 ≤ a ∧ a ≤ 0xFFFF ∧ putsDemo.memory a = 0) ∧
    (∃ z, putsDemo.reg R_R0 ≤ z ∧ z ≤ 0xFFFF ∧ putsDemo.memory z = 0 ∧
      (∀ a, putsDemo.reg R_R0 ≤ a → a < z → putsDemo.memory a ≠ 0) ∧
      (step putsDemo).stdout = putsDemo.stdout ++
        (List.range (z - putsDemo.reg R_R0)).map
          (fun k => putsDemo.memory (putsDemo.reg R_R0 + k) % 256) ∧
      (step putsDemo).memory = putsDemo.memory ∧
      (∀ j, j ≤ 6 → (step putsDemo).reg j = putsDemo.reg j) ∧
      (step putsDemo).reg R_COND = putsDemo.reg R_COND ∧
      (step putsDemo).reg R_R7 = (putsDemo.reg R_PC + 1) % 65536) ∧
    (step putsDemo).stdout = [105] :=
  ⟨by decide, by decide, ⟨0x3005, by decide, by decide, by decide⟩,
    puts_writes_low_bytes putsDemo (by decide) (by decide)
      ⟨0x3005, by decide, by decide, by decide⟩,
    by decide⟩

/-- C12 on a packed string after its LEA: the words `0x6948, 0x0021` give the
bytes `H`, `i`, `!`. -/
theorem putsp_writes_packed_bytes_witness :
    (fetch putspDemo).1 >>> 12 = OP_TRAP ∧ (fetch putspDemo).1 &&& 0xff = TRAP_PUTSP ∧
    (∃ a, putspDemo.reg R_R0 ≤ a ∧ a ≤ 0xFFFF ∧ putspDemo.memory a = 0) ∧
    (∃ z, putspDemo.reg R_R0 ≤ z ∧ z ≤ 0xFFFF ∧ putspDemo.memory z = 0 ∧
      (∀ a, putspDemo.reg R_R0 ≤ a → a < z → putspDemo.memory a ≠ 0) ∧
      (step putspDemo).stdout = putspDemo.stdout ++
        (List.range (z - putspDemo.reg R_R0)).flatMap (fun k =>
          if putspDemo.memory (putspDemo.reg R_R0 + k) / 256 % 256 ≠ 0
          then [putspDemo.memory (putspDemo.reg R_R0 + k) % 256,
            putspDemo.memory (putspDemo.reg R_R0 + k) / 256 % 256]
          else [putspDemo.memory (putspDemo.reg R_R0 + k) % 256]) ∧
      (step putspDemo).memory = putspDemo.memory ∧
      (∀ j, j ≤ 6 → (step putspDemo).reg j = putspDemo.reg j) ∧
      (step putspDemo).reg R_COND = putspDemo.reg R_COND) ∧
    (step putspDemo).stdout = [0x48, 0x69, 0x21] :=
  ⟨by decide, by decide, ⟨0x3005, by decide, by decide, by decide⟩,
    putsp_writes_packed_bytes putspDemo (by decide) (by decide)
      ⟨0x3005, by decide, by decide, by decide⟩,
    by decide⟩

/-- C13 at the word `0xF0FF` (TRAP with vector `0xFF`) on the booted machine:
only `R7` and `PC` change, both to `0x3001`. -/
theorem unknown_trap_is_noop_witness :
    (fetch (oneWord 0xF0FF)).1 >>> 12 = OP_TRAP ∧
    ¬ (0x20 ≤ (fetch (oneWord 0xF0FF)).1 &&& 0xff ∧
      (fetch (oneWord 0xF0FF)).1 &&& 0xff ≤ 0x25) ∧
    (oneWord 0xF0FF).reg R_PC ≠ 0xFE00 ∧
    (step (oneWord 0xF0FF)).reg R_R7 = 0x3001 ∧
    (step (oneWord 0xF0FF)).reg R_PC = 0x3001 ∧
    (step (oneWord 0xF0FF)).status = Status.running :=
  ⟨by decide, by decide, by decide,
    (unknown_trap_is_noop (oneWord 0xF0FF) (by decide) (by decide) (by decide)).1,
    (unknown_trap_is_noop (oneWord 0xF0FF) (by decide) (by decide) (by decide)).2.1,
    (unknown_trap_is_noop (oneWord 0xF0FF) (by decide) (by decide)
      (by decide)).2.2.2.2.2.2.2.2⟩

end MyVM
